import Mathlib

/-!
# PlanLingo schedule engine — formal model

A shallow embedding of the interval-scheduling core of the PlanLingo
frontend:

* `src/frontend/src/services/scheduleAI.ts` — time utilities
  (`timeToMinutes`, `minutesToTime`), the block repairer
  (`validateAndFixSchedule`), the balance/score calculator
  (`calculateWorkLifeBalance`, `calculateOptimizationScore`,
  `validateTimeGaps`), the suggestion generator
  (`generateSmartSuggestions`) and `generateTimeAnalytics`.
* `src/frontend/src/components/ui/EnhancedScheduleTimeline.tsx` — grid
  snapping (`snapToGrid`), the lane-layout engine (`layoutEvents`) and
  the interactive editor handlers (`handleKeyDown`, drag move, resize).

Modelling conventions:

* JS strings are Lean `String`s; character-level work happens on
  `String.data`.
* JS numbers that hold whole minutes or durations are modelled as `Int`
  (the schema documents `duration` as minutes); pixel-derived minute
  deltas are modelled as `ℚ`.  `NaN` is modelled by `Option`: a `none`
  result of a parse marks the value as NaN.  Code paths whose behaviour
  depends on NaN-poisoned comparisons are modelled as `none` at the
  function boundary.
* `Array.prototype.sort` (a stable comparison sort) is modelled by
  `List.insertionSort`, which is also stable; for a total, transitive
  comparator every stable sort computes the same list.
-/

/-! ## JS primitives: `Number`, `String.split(':')`, `padStart(2,'0')`, `String(n)` -/

/-- The numeric value of a decimal digit character, `none` otherwise. -/
def digitVal (c : Char) : Option Nat :=
  if c.isDigit then some (c.toNat - 48) else none

/-- Decimal value of a list of digit characters (most significant first);
`none` as soon as a non-digit appears.  On `[]` it yields `some 0`,
matching `Number("") = 0` in JS. -/
def parseNatDigits (cs : List Char) : Option Nat :=
  cs.foldl
    (fun acc c =>
      match acc, digitVal c with
      | some a, some d => some (a * 10 + d)
      | _, _ => none)
    (some 0)

/-- Model of JS `Number(s)` restricted to the strings this code base
produces: the empty string (value 0) and decimal digit strings with an
optional leading minus sign.  `none` models `NaN`; other numeric
notations (fractions, exponents, hex, whitespace) never occur here. -/
def jsNumber : List Char → Option Int
  | [] => some 0
  | c :: cs =>
    if c = '-' then
      if cs = [] then none else (parseNatDigits cs).map (fun n => -(n : Int))
    else
      (parseNatDigits (c :: cs)).map (fun n => (n : Int))

/-- Model of JS `s.split(':')` on the character list of `s`
(`"".split(':') = [""]`, separators produce empty fields). -/
def splitOnColon : List Char → List (List Char)
  | [] => [[]]
  | c :: cs =>
    if c = ':' then [] :: splitOnColon cs
    else
      match splitOnColon cs with
      | [] => [[c]]
      | r :: rs => (c :: r) :: rs

/-- Model of JS `s.padStart(2, '0')`. -/
def padStart2 (cs : List Char) : List Char :=
  if cs.length < 2 then List.replicate (2 - cs.length) '0' ++ cs else cs

/-- Decimal digits of `n`, most significant first (fuelled so that it is
structural and kernel-reducible). -/
def natToCharsAux : Nat → Nat → List Char
  | 0, _ => []
  | fuel + 1, n =>
    if n < 10 then [Char.ofNat (48 + n)]
    else natToCharsAux fuel (n / 10) ++ [Char.ofNat (48 + n % 10)]

/-- Decimal representation of a natural number, e.g. `natToChars 30 = ['3','0']`. -/
def natToChars (n : Nat) : List Char := natToCharsAux (n + 1) n

/-- Model of JS `String(n)` for an integer `n`. -/
def intToChars (n : Int) : List Char :=
  if n < 0 then '-' :: natToChars n.natAbs else natToChars n.natAbs

/-! ## Time utilities (scheduleAI.ts lines 590–602; the identical copies in
EnhancedScheduleTimeline.tsx lines 48–58 are the same functions) -/

/-- `timeToMinutes` —
`const [hours, minutes] = time.split(':').map(Number); return hours * 60 + minutes;`.
A `none` result models NaN (destructuring a 1-element split gives
`minutes = Number(undefined) = NaN`, and NaN propagates through the
arithmetic). -/
def timeToMinutes (time : String) : Option Int :=
  match (splitOnColon time.data).map jsNumber with
  | hs :: ms :: _ =>
    match hs, ms with
    | some h, some m => some (h * 60 + m)
    | _, _ => none
  | _ => none

/-- `minutesToTime` —
`hours = Math.floor(minutes / 60) % 24; mins = minutes % 60;` followed by
`padStart(2,'0')` formatting.  `Math.floor(· / 60)` is `Int.fdiv · 60`
and the JS `%` (remainder with the dividend's sign) is `Int.tmod`. -/
def minutesToTime (minutes : Int) : String :=
  String.mk
    (padStart2 (intToChars ((minutes.fdiv 60).tmod 24)) ++
      ':' :: padStart2 (intToChars (minutes.tmod 60)))

/-- JS `Math.round` on an exact rational: round half toward `+∞`. -/
def jsRound (q : ℚ) : Int := Int.floor (q + 1 / 2)

/-- JS `String(n)` for a natural number, as a Lean `String`. -/
def jsStringOfNat (n : Nat) : String := String.mk (natToChars n)

/-! ## Data model (the zod `ScheduleBlockSchema`, scheduleAI.ts lines 6–16).
`duration` is documented as whole minutes and is modelled as `Int`.
The constructor for the activity type `break` is written `«break»`
because `break` is a Lean keyword. -/

inductive BlockType where
  | work
  | exercise
  | sleep
  | meal
  | «break»
  | personal
  | commute
  | wellness
  deriving DecidableEq

inductive BlockPriority where
  | low
  | medium
  | high
  deriving DecidableEq

structure ScheduleBlock where
  id : String
  title : String
  startTime : String
  endTime : String
  duration : Int
  type : BlockType
  description : Option String := none
  priority : Option BlockPriority := none
  flexible : Option Bool := none
  deriving DecidableEq

/-! ## Block repairer (`validateAndFixSchedule`, scheduleAI.ts lines 402–461)

The source first sorts a copy of the block list with the comparator
`(timeA[0]*60 + timeA[1]) - (timeB[0]*60 + timeB[1])` on the parsed
start times (`Array.prototype.sort` is stable), then sweeps left to
right fixing overlaps against `lastEndTime`, enforcing a 15-minute
minimum duration, recomputing `endTime` and reassigning sequential ids.

The model pairs each block with its parsed start minutes and sorts
stably on that key.  If any start time fails to parse the whole result
is `none` (in JS a NaN-valued comparator makes the sort order
unspecified, which we do not model). -/

/-- "Sorts no later than": the comparator of the start-time sort. -/
def startKeyLE (a b : Int × ScheduleBlock) : Prop := a.1 ≤ b.1

instance : DecidableRel startKeyLE := fun a b => Int.decLe a.1 b.1

instance : IsTotal (Int × ScheduleBlock) startKeyLE := ⟨fun a b => le_total a.1 b.1⟩

instance : IsTrans (Int × ScheduleBlock) startKeyLE := ⟨fun _ _ _ => le_trans⟩

/-- The left-to-right overlap-fixing sweep of `validateAndFixSchedule`.
`index` carries the JS `String(index + 1)` id counter (already
incremented, so the first block gets id `"1"`). -/
def fixSweep : String → Nat → List ScheduleBlock → Option (List ScheduleBlock)
  | _, _, [] => some []
  | lastEndTime, index, block :: rest => do
    let blockStartMinutes ← timeToMinutes block.startTime
    let lastEndMinutes ← timeToMinutes lastEndTime
    let adjustedStartTime :=
      if blockStartMinutes < lastEndMinutes then lastEndTime else block.startTime
    let adjustedStartMinutes ← timeToMinutes adjustedStartTime
    let duration := max block.duration 15
    let endTime := minutesToTime (adjustedStartMinutes + duration)
    let fixedRest ← fixSweep endTime (index + 1) rest
    some ({ block with
              id := jsStringOfNat index
              startTime := adjustedStartTime
              endTime := endTime
              duration := duration } :: fixedRest)

/-- The block-list part of `validateAndFixSchedule`: stable sort by parsed
start time, then the overlap-fixing sweep starting from
`lastEndTime = "00:00"`.  (The aggregate fields of the returned
`DailySchedule` are recomputed from this list by
`calculateWorkLifeBalance`, `generateSmartSuggestions` and
`calculateOptimizationScore`, modelled separately below.) -/
def validateAndFixSchedule (blocks : List ScheduleBlock) : Option (List ScheduleBlock) := do
  let keyed ← blocks.mapM (fun b => (timeToMinutes b.startTime).map (fun v => (v, b)))
  let sortedBlocks := (keyed.insertionSort startKeyLE).map Prod.snd
  fixSweep "00:00" 1 sortedBlocks

/-! ## Balance / score calculator (scheduleAI.ts lines 607–729) -/

structure WorkLifeBalance where
  workHours : ℚ
  personalHours : ℚ
  sleepHours : ℚ
  exerciseMinutes : Int
  deriving DecidableEq

/-- The four running totals of `calculateWorkLifeBalance`
(work, personal(+wellness), sleep, exercise), in minutes. -/
def wlbTotals (blocks : List ScheduleBlock) : Int × Int × Int × Int :=
  blocks.foldl
    (fun t b =>
      match b.type with
      | .work => (t.1 + b.duration, t.2.1, t.2.2.1, t.2.2.2)
      | .personal => (t.1, t.2.1 + b.duration, t.2.2.1, t.2.2.2)
      | .wellness => (t.1, t.2.1 + b.duration, t.2.2.1, t.2.2.2)
      | .sleep => (t.1, t.2.1, t.2.2.1 + b.duration, t.2.2.2)
      | .exercise => (t.1, t.2.1, t.2.2.1, t.2.2.2 + b.duration)
      | _ => t)
    (0, 0, 0, 0)

/-- `calculateWorkLifeBalance` (scheduleAI.ts lines 607–639). -/
def calculateWorkLifeBalance (blocks : List ScheduleBlock) : WorkLifeBalance :=
  let t := wlbTotals blocks
  { workHours := (t.1 : ℚ) / 60
    personalHours := (t.2.1 : ℚ) / 60
    sleepHours := (t.2.2.1 : ℚ) / 60
    exerciseMinutes := t.2.2.2 }

/-- `generateSmartSuggestions` (scheduleAI.ts lines 644–678).  The
`originalInput` parameter is accepted but never read, as in the source. -/
def generateSmartSuggestions (blocks : List ScheduleBlock) (originalInput : String) :
    List String :=
  let totals := calculateWorkLifeBalance blocks
  let suggestions : List String :=
    (if totals.workHours > 9 then
      ["Consider reducing work hours to improve work-life balance"] else []) ++
    (if totals.exerciseMinutes < 30 then
      ["Add at least 30 minutes of daily exercise for better health"] else []) ++
    (if totals.sleepHours < 7 then
      ["Increase sleep duration to 7-9 hours for optimal recovery"] else []) ++
    (if totals.personalHours < 2 then
      ["Schedule more personal time for relaxation and hobbies"] else []) ++
    (if (blocks.filter (fun b => decide (b.type = BlockType.work))).any
        (fun b => decide (b.duration > 240)) then
      ["Add short breaks during long work sessions to maintain productivity"] else [])
  let suggestions :=
    if suggestions = [] then
      ["Your schedule looks well-balanced!",
       "Consider adding variety to keep things interesting"]
    else suggestions
  suggestions.take 4

/-- One step of `validateTimeGaps`: in JS a NaN gap satisfies neither
`gap < 0` nor `gap > 180`, so an unparseable pair passes the check. -/
def gapOk (b1 b2 : ScheduleBlock) : Bool :=
  match timeToMinutes b1.endTime, timeToMinutes b2.startTime with
  | some currentEnd, some nextStart =>
    !(decide (nextStart - currentEnd < 0) || decide (nextStart - currentEnd > 180))
  | _, _ => true

/-- `validateTimeGaps` (scheduleAI.ts lines 717–729): scans consecutive
pairs for an overlap or a gap above 180 minutes. -/
def validateTimeGaps (blocks : List ScheduleBlock) : Bool :=
  (blocks.zip blocks.tail).all (fun p => gapOk p.1 p.2)

/-- `calculateOptimizationScore` (scheduleAI.ts lines 683–712). -/
def calculateOptimizationScore (blocks : List ScheduleBlock) : Int :=
  let totals := calculateWorkLifeBalance blocks
  let score : Int := 100
  let score := if totals.workHours > 9 then score - 15
    else if totals.workHours < 6 then score - 10 else score
  let score := if totals.personalHours < 2 then score - 15 else score
  let score := if totals.sleepHours < 7 ∨ totals.sleepHours > 9 then score - 20 else score
  let score := if totals.exerciseMinutes < 30 then score - 20 else score
  let hasMeals := blocks.any (fun b => decide (b.type = BlockType.meal))
  let score := if !hasMeals then score - 10 else score
  let hasBreaks := blocks.any (fun b => decide (b.type = BlockType.«break»))
  let score := if !hasBreaks ∧ totals.workHours > 6 then score - 10 else score
  let hasWellness := blocks.any (fun b => decide (b.type = BlockType.wellness))
  let score := if !hasWellness then score - 5 else score
  let score := if !validateTimeGaps blocks then score - 5 else score
  max 0 (min 100 score)

/-! ## `generateTimeAnalytics` (scheduleAI.ts lines 187–225) -/

/-- A `NaN`/`Infinity`-aware JS number, for the unguarded divisions of
`generateTimeAnalytics`. -/
inductive JSNum where
  | num (q : ℚ)
  | nan
  | inf
  | ninf
  deriving DecidableEq

/-- JS division: `0 / 0 = NaN`, `±x / 0 = ±Infinity` for `x ≠ 0`. -/
def jsDiv (a b : ℚ) : JSNum :=
  if b = 0 then
    if a = 0 then .nan else if a > 0 then .inf else .ninf
  else .num (a / b)

/-- Multiplying a JS number by a positive rational constant. -/
def JSNum.mulPos : JSNum → ℚ → JSNum
  | .num q, c => .num (q * c)
  | .nan, _ => .nan
  | .inf, _ => .inf
  | .ninf, _ => .ninf

/-- JS `Math.round` on a possibly non-finite number
(`Math.round(NaN) = NaN`, `Math.round(±Infinity) = ±Infinity`). -/
def JSNum.round : JSNum → JSNum
  | .num q => .num ((jsRound q : ℚ))
  | v => v

/-- `getTypeColor` (scheduleAI.ts lines 230–242), restricted to the
closed `BlockType` enum (the string-keyed default branch is
unreachable for well-typed blocks). -/
def getTypeColor : BlockType → String
  | .work => "#3B82F6"
  | .exercise => "#10B981"
  | .sleep => "#6366F1"
  | .meal => "#F59E0B"
  | .«break» => "#EF4444"
  | .personal => "#8B5CF6"
  | .commute => "#6B7280"
  | .wellness => "#EC4899"

/-- `type.charAt(0).toUpperCase() + type.slice(1)` on the enum. -/
def typeLabel : BlockType → String
  | .work => "Work"
  | .exercise => "Exercise"
  | .sleep => "Sleep"
  | .meal => "Meal"
  | .«break» => "Break"
  | .personal => "Personal"
  | .commute => "Commute"
  | .wellness => "Wellness"

/-- The key order of the `analytics` object literal, which
`Object.entries` preserves. -/
def allBlockTypes : List BlockType :=
  [.work, .exercise, .sleep, .meal, .«break», .personal, .commute, .wellness]

/-- Total minutes accumulated into `analytics[t]` by the forEach loop. -/
def typeMinutes (blocks : List ScheduleBlock) (t : BlockType) : Int :=
  (blocks.filter (fun b => decide (b.type = t))).foldl (fun s b => s + b.duration) 0

structure BreakdownItem where
  label : String
  value : ℚ
  minutes : Int
  percentage : Int
  color : String
  deriving DecidableEq

/-- The analytics record; the nested `workLifeBalance` object is
flattened into the three percentage fields. -/
structure TimeAnalytics where
  breakdown : List BreakdownItem
  totalHours : ℚ
  totalMinutes : Int
  workPercentage : JSNum
  personalPercentage : JSNum
  sleepPercentage : JSNum
  deriving DecidableEq

/-- `Math.round((q) * 100) / 100` — two-decimal display rounding. -/
def jsRound2dp (q : ℚ) : ℚ := (jsRound (q * 100) : ℚ) / 100

/-- The running `totalMinutes` accumulated by the forEach loop. -/
def totalDurationMinutes (schedule : List ScheduleBlock) : Int :=
  schedule.foldl (fun s b => s + b.duration) 0

/-- `generateTimeAnalytics` (scheduleAI.ts lines 187–225).  The per-type
`percentage` is guarded by `totalMinutes > 0`; the three
`workLifeBalance` percentages divide by `totalMinutes` unguarded. -/
def generateTimeAnalytics (schedule : List ScheduleBlock) : TimeAnalytics :=
  let totalMinutes : Int := totalDurationMinutes schedule
  let breakdown :=
    (allBlockTypes.map (fun t =>
      let minutes := typeMinutes schedule t
      { label := typeLabel t
        value := jsRound2dp ((minutes : ℚ) / 60)
        minutes := minutes
        percentage :=
          if totalMinutes > 0 then jsRound ((minutes : ℚ) / (totalMinutes : ℚ) * 100) else 0
        color := getTypeColor t : BreakdownItem })).filter (fun item => decide (item.minutes > 0))
  { breakdown := breakdown
    totalHours := jsRound2dp ((totalMinutes : ℚ) / 60)
    totalMinutes := totalMinutes
    workPercentage :=
      ((jsDiv (typeMinutes schedule .work : ℚ) (totalMinutes : ℚ)).mulPos 100).round
    personalPercentage :=
      ((jsDiv ((typeMinutes schedule .personal : ℚ) + (typeMinutes schedule .wellness : ℚ) +
          (typeMinutes schedule .exercise : ℚ)) (totalMinutes : ℚ)).mulPos 100).round
    sleepPercentage :=
      ((jsDiv (typeMinutes schedule .sleep : ℚ) (totalMinutes : ℚ)).mulPos 100).round }

/-! ## Timeline (EnhancedScheduleTimeline.tsx)

Constants: `SNAP_MINUTES = 5`, `HOUR_HEIGHT = 60` px/hour,
`MIN_EVENT_HEIGHT = 20` px.  With `HOUR_HEIGHT = 60` a pixel delta of
`d` converts to `d` minutes (`deltaMinutes = deltaY / HOUR_HEIGHT * 60`);
the handlers below therefore take the already-converted minute delta as
an exact rational. -/

/-- `snapToGrid` (EnhancedScheduleTimeline.tsx lines 61–63):
`Math.round(minutes / SNAP_MINUTES) * SNAP_MINUTES`. -/
def snapToGrid (minutes : ℚ) : Int := jsRound (minutes / 5) * 5

/-- The `LayoutEvent` projection (EnhancedScheduleTimeline.tsx lines
15–26).  `start`/`end` are named `startM`/`endM` because `end` is a Lean
keyword. -/
structure LayoutEvent where
  id : String
  title : String
  startM : Int
  endM : Int
  type : BlockType
  originalBlock : ScheduleBlock
  lane : Nat
  laneCount : Nat
  top : ℚ
  height : ℚ
  deriving DecidableEq

/-- Block-to-event conversion (lines 70–96): parse the times, expand a
cross-midnight end by 1440, enforce a 5-minute visual minimum, set the
vertical geometry, and initialise `lane = 0`, `laneCount = 1`. -/
def toLayoutEvent (block : ScheduleBlock) : Option LayoutEvent := do
  let start ← timeToMinutes block.startTime
  let end0 ← timeToMinutes block.endTime
  let end1 := if end0 < start then end0 + 1440 else end0
  let endV := if end1 - start < 5 then start + 5 else end1
  some
    { id := block.id
      title := block.title
      startM := start
      endM := endV
      type := block.type
      originalBlock := block
      lane := 0
      laneCount := 1
      top := (start : ℚ) / 1440 * 24 * 60
      height := max ((endV - start : ℚ) / 60 * 60) 20 }

/-- The sort comparator (lines 99–102): ascending `start`, ties broken
by shorter duration first. -/
def levLE (a b : LayoutEvent) : Prop :=
  a.startM < b.startM ∨ (a.startM = b.startM ∧ a.endM - a.startM ≤ b.endM - b.startM)

instance : DecidableRel levLE := fun a b => by
  unfold levLE
  infer_instance

instance : IsTotal LayoutEvent levLE :=
  ⟨fun a b => by
    unfold levLE
    omega⟩

instance : IsTrans LayoutEvent levLE :=
  ⟨fun a b c hab hbc => by
    unfold levLE at *
    omega⟩

/-- The overlap test of the grouping loop (line 113–115):
`!(event.end <= groupEvent.start || event.start >= groupEvent.end)`. -/
def overlapsB (event groupEvent : LayoutEvent) : Bool :=
  !(decide (event.endM ≤ groupEvent.startM) || decide (event.startM ≥ groupEvent.endM))

/-- A throwaway placeholder event (only read through `evAt` at
out-of-range indices, which never happens in the proofs). -/
def dfltEv : LayoutEvent :=
  { id := ""
    title := ""
    startM := 0
    endM := 0
    type := .work
    originalBlock :=
      { id := ""
        title := ""
        startTime := ""
        endTime := ""
        duration := 0
        type := .work }
    lane := 0
    laneCount := 1
    top := 0
    height := 0 }

/-- The event at position `i` of the sorted event list. -/
def evAt (es : List LayoutEvent) (i : Nat) : LayoutEvent := es.getD i dfltEv

/-- `let lane = 0; while (usedLanes.has(lane)) lane++` — fuelled so that
it is structural. -/
def minFreeFrom (used : List Nat) : Nat → Nat → Nat
  | lane, 0 => lane
  | lane, fuel + 1 => if lane ∈ used then minFreeFrom used (lane + 1) fuel else lane

/-- The smallest lane index not in `used`. -/
def minFreeLane (used : List Nat) : Nat := minFreeFrom used 0 (used.length + 1)

/-- A group is the list of (index into the sorted event array, assigned
lane) pairs, in insertion order; object identity of the mutated JS
events is modelled by the array index. -/
abbrev LaneGroup := List (Nat × Nat)

/-- Does group `g` contain an event overlapping event `i`? -/
def groupHasOverlap (es : List LayoutEvent) (i : Nat) (g : LaneGroup) : Bool :=
  g.any (fun p => overlapsB (evAt es i) (evAt es p.1))

/-- Scan the groups in creation order; on the first group containing an
overlapping event, append event `i` with the lowest free lane of that
group.  `none` when no group overlaps (lines 107–130). -/
def addToGroup (es : List LayoutEvent) (i : Nat) : List LaneGroup → Option (List LaneGroup)
  | [] => none
  | g :: gs =>
    if groupHasOverlap es i g then
      some ((g ++ [(i, minFreeLane (g.map Prod.snd))]) :: gs)
    else
      (addToGroup es i gs).map (g :: ·)

/-- Process one event: join the first overlapping group, or start a new
group with lane 0 (lines 107–137). -/
def insertEvent (es : List LayoutEvent) (gs : List LaneGroup) (i : Nat) : List LaneGroup :=
  match addToGroup es i gs with
  | some gs2 => gs2
  | none => gs ++ [[(i, 0)]]

/-- The grouping pass over the sorted events, in order. -/
def buildGroups (es : List LayoutEvent) : List LaneGroup :=
  (List.range es.length).foldl (insertEvent es) []

/-- `Math.max(...group.map(e => e.lane))` for a non-empty group. -/
def groupMaxLane (g : LaneGroup) : Nat := g.foldl (fun m p => max m p.2) 0

/-- The group containing index `i` (unique once the groups partition the
processed indices). -/
def findGroup (gs : List LaneGroup) (i : Nat) : Option LaneGroup :=
  gs.find? (fun g => g.any (fun p => p.1 == i))

/-- The lane recorded for index `i`. -/
def laneOf (gs : List LaneGroup) (i : Nat) : Nat :=
  match findGroup gs i with
  | some g => (((g.find? (fun p => p.1 == i)).map Prod.snd).getD 0)
  | none => 0

/-- `laneCount = maxLane + 1` over the group of index `i` (lines
139–147); an index in no group keeps the initial `laneCount = 1`. -/
def laneCountOf (gs : List LaneGroup) (i : Nat) : Nat :=
  match findGroup gs i with
  | some g => groupMaxLane g + 1
  | none => 1

/-- `layoutEvents` (EnhancedScheduleTimeline.tsx lines 66–150): convert,
sort, group, assign lanes and lane counts.  `none` models a block list
with an unparseable time (NaN-poisoned comparisons).  On `[]` the
source returns `[]`, as does this model. -/
def layoutEvents (blocks : List ScheduleBlock) : Option (List LayoutEvent) := do
  let evs ← blocks.mapM toLayoutEvent
  let sorted := evs.insertionSort levLE
  let gs := buildGroups sorted
  some ((List.range sorted.length).map (fun i =>
    { evAt sorted i with lane := laneOf gs i, laneCount := laneCountOf gs i }))

/-! ## Interactive editor handlers -/

/-- One pointer-move of the drag handler (lines 262–286):
snap the candidate start, clamp to `[0, 1440 - duration]` where
`duration` is recomputed from the stored times, rebuild both time
strings.  Only `startTime`/`endTime` are written back. -/
def dragMoveUpdate (block : ScheduleBlock) (deltaMinutes : ℚ) : Option (String × String) := do
  let originalStartTime ← timeToMinutes block.startTime
  let endValue ← timeToMinutes block.endTime
  let newStartMinutes := snapToGrid ((originalStartTime : ℚ) + deltaMinutes)
  let duration := endValue - originalStartTime
  let clampedStartMinutes := max 0 (min (1440 - duration) newStartMinutes)
  some (minutesToTime clampedStartMinutes, minutesToTime (clampedStartMinutes + duration))

/-- The drag update as applied by `handleBlockUpdate`
(ModernPlannerInterface.tsx lines 91–99): spread onto the block, leaving
every other field — including `duration` — unchanged. -/
def applyDragMove (block : ScheduleBlock) (deltaMinutes : ℚ) : Option ScheduleBlock :=
  (dragMoveUpdate block deltaMinutes).map
    (fun p => { block with startTime := p.1, endTime := p.2 })

/-- One pointer-move of the resize handler (lines 315–337): snap the
candidate end, clamp to `[start + 15, 1440]`.  Only `endTime` is
written back. -/
def resizeMoveUpdate (block : ScheduleBlock) (deltaMinutes : ℚ) : Option String := do
  let originalEndTime ← timeToMinutes block.endTime
  let originalStartTime ← timeToMinutes block.startTime
  let newEndMinutes := snapToGrid ((originalEndTime : ℚ) + deltaMinutes)
  let clampedEndMinutes := max (originalStartTime + 15) (min 1440 newEndMinutes)
  some (minutesToTime clampedEndMinutes)

/-- The resize update as applied by `handleBlockUpdate`: only `endTime`
changes; `duration` keeps its old value. -/
def applyResizeMove (block : ScheduleBlock) (deltaMinutes : ℚ) : Option ScheduleBlock :=
  (resizeMoveUpdate block deltaMinutes).map (fun e => { block with endTime := e })

/-- The `Partial<ScheduleBlock>` update passed to `onBlockUpdate` by
`handleKeyDown`, or the other actions it can take. -/
inductive KeyAction where
  | update (startTime endTime : Option String)
  | editTitle
  | delete
  | unhandled
  deriving DecidableEq

/-- `handleKeyDown` (EnhancedScheduleTimeline.tsx lines 191–247).  The
switch dispatches on `event.key` alone; `shiftKey` is accepted (the
DOM delivers it) but — exactly as in the source — never read.  A
physical Shift+ArrowUp press arrives as `key = "ArrowUp"`,
`shiftKey = true`; `event.key` is never the literal string
`"Shift+ArrowUp"`. -/
def handleKeyDown (key : String) (shiftKey : Bool) (block : ScheduleBlock) :
    Option KeyAction := do
  let currentStartTime ← timeToMinutes block.startTime
  let currentEndTime ← timeToMinutes block.endTime
  let duration := currentEndTime - currentStartTime
  if key = "ArrowUp" then
    let newStartTime := max 0 (snapToGrid ((currentStartTime - 15 : Int) : ℚ))
    some (.update (some (minutesToTime newStartTime))
      (some (minutesToTime (newStartTime + duration))))
  else if key = "ArrowDown" then
    let newStartTime := min (1440 - duration) (snapToGrid ((currentStartTime + 15 : Int) : ℚ))
    some (.update (some (minutesToTime newStartTime))
      (some (minutesToTime (newStartTime + duration))))
  else if key = "Shift+ArrowUp" then
    let newEndTime := max (currentStartTime + 15) (snapToGrid ((currentEndTime - 15 : Int) : ℚ))
    some (.update none (some (minutesToTime newEndTime)))
  else if key = "Shift+ArrowDown" then
    let newEndTime := min 1440 (snapToGrid ((currentEndTime + 15 : Int) : ℚ))
    some (.update none (some (minutesToTime newEndTime)))
  else if key = "Enter" ∨ key = " " then
    some .editTitle
  else if key = "Delete" ∨ key = "Backspace" then
    some .delete
  else
    some .unhandled

/-- Applying a `KeyAction.update` through `handleBlockUpdate`'s spread:
only the present fields change. -/
def applyKeyUpdate (block : ScheduleBlock) : KeyAction → ScheduleBlock
  | .update st et =>
    { block with
        startTime := st.getD block.startTime
        endTime := et.getD block.endTime }
  | _ => block

/-- The duration invariant of the spec:
`duration == (endTime - startTime) mod 1440` between the stored
`duration` field and the stored time strings. -/
def durationInvariant (b : ScheduleBlock) : Bool :=
  match timeToMinutes b.startTime, timeToMinutes b.endTime with
  | some s, some e => decide (b.duration = (e - s) % 1440)
  | _, _ => false

/-- Well-formed `HH:MM`: two decimal digits, a colon, two decimal
digits, hour below 24 and minute below 60 — the shape the data model
documents for `startTime` / `endTime`. -/
def isWellFormedHHMM (t : String) : Bool :=
  match t.data with
  | [h1, h2, c, m1, m2] =>
    c == ':' && h1.isDigit && h2.isDigit && m1.isDigit && m2.isDigit &&
      decide ((h1.toNat - 48) * 10 + (h2.toNat - 48) < 24) &&
      decide ((m1.toNat - 48) * 10 + (m2.toNat - 48) < 60)
  | _ => false

/-! ## Concrete fixtures used by the scenario checks -/

/-- A block with the given times, duration and type (the remaining
fields do not influence any of the functions under study). -/
def mkBlock (startTime endTime : String) (duration : Int) (type : BlockType) : ScheduleBlock :=
  { id := "x"
    title := "activity"
    startTime := startTime
    endTime := endTime
    duration := duration
    type := type }

/-- Scenario B, first candidate: `10:00`, 60 minutes. -/
def blockB1 : ScheduleBlock := mkBlock "10:00" "11:00" 60 .work

/-- Scenario B, second candidate: `10:00`, 30 minutes. -/
def blockB2 : ScheduleBlock := mkBlock "10:00" "10:30" 30 .meal

/-- Scenario C blocks: `09:00–11:00`, `10:00–10:30`, `10:15–10:45`. -/
def blockC1 : ScheduleBlock := mkBlock "09:00" "11:00" 120 .work

def blockC2 : ScheduleBlock := mkBlock "10:00" "10:30" 30 .meal

def blockC3 : ScheduleBlock := mkBlock "10:15" "10:45" 30 .personal

/-- A one-hour morning block satisfying the duration invariant. -/
def blockHour : ScheduleBlock := mkBlock "09:00" "10:00" 60 .work

/-- A cross-midnight block, `23:00–01:00`, stored duration 120. -/
def blockCross : ScheduleBlock := mkBlock "23:00" "01:00" 120 .sleep

/-- Input triple on which repairing once produces an end time that wraps
past midnight (`23:10 + 60min`, after being pushed to `23:50`). -/
def blockW1 : ScheduleBlock := mkBlock "23:00" "23:50" 50 .work

def blockW2 : ScheduleBlock := mkBlock "23:10" "00:10" 60 .personal

def blockW3 : ScheduleBlock := mkBlock "23:20" "23:50" 30 .meal

/-- Scenario E fixture: 10 h work, 6 h sleep, 1 h personal, no exercise. -/
def blockE1 : ScheduleBlock := mkBlock "09:00" "19:00" 600 .work

def blockE2 : ScheduleBlock := mkBlock "23:00" "05:00" 360 .sleep

def blockE3 : ScheduleBlock := mkBlock "20:00" "21:00" 60 .personal

/-- Scenario D fixture: a 45-minute block. -/
def blockD : ScheduleBlock := mkBlock "09:00" "09:45" 45 .work

/-- The chained postcondition of the repair sweep: starting from the
lower bound `L`, every block's start time parses to a value at least the
previous block's parsed end value. -/
def chainFrom : Int → List ScheduleBlock → Prop
  | _, [] => True
  | lowerBound, b :: rest =>
    ∃ s e, timeToMinutes b.startTime = some s ∧ lowerBound ≤ s ∧
      timeToMinutes b.endTime = some e ∧ 0 ≤ e ∧ chainFrom e rest

/-- A repaired block that stays strictly inside the day: its start
parses to a nonnegative value and start + duration does not reach
midnight. -/
def noMidnightWrap (b : ScheduleBlock) : Prop :=
  ∃ s, timeToMinutes b.startTime = some s ∧ 0 ≤ s ∧ s + b.duration < 1440

/-- The full shape of the repair sweep's output, starting from lower
bound `L` and id counter `idx`: each block's start parses to `s ≥ L`,
its duration is at least 15, its id is `String(idx)`, its end string is
exactly `minutesToTime (s + duration)`, and the rest continues from the
wrapped end value. -/
def sweepShape : Int → Nat → List ScheduleBlock → Prop
  | _, _, [] => True
  | L, idx, b :: rest =>
    ∃ s, timeToMinutes b.startTime = some s ∧ L ≤ s ∧
      15 ≤ b.duration ∧ b.id = jsStringOfNat idx ∧
      b.endTime = minutesToTime (s + b.duration) ∧
      sweepShape ((s + b.duration) % 1440) (idx + 1) rest

/-! ## Layout-engine proof interfaces -/

/-- All event indices recorded in a list of lane groups, in order. -/
def groupsIdx (gs : List LaneGroup) : List Nat := (gs.map (fun g => g.map Prod.fst)).flatten

/-- Event `i` of `es` covers minute `t`. -/
def coversAt (es : List LayoutEvent) (i : Nat) (t : Int) : Prop :=
  (evAt es i).startM ≤ t ∧ t < (evAt es i).endM

/-- The invariant of the grouping loop after the first `k` events have
been processed: the groups partition `{0, …, k-1}`, all processed
events covering a common minute sit in one group, lanes are distinct
within a group, and every group is overlap-connected through its own
members. -/
structure GroupsInv (es : List LayoutEvent) (k : Nat) (gs : List LaneGroup) : Prop where
  mem_iff : ∀ i, i ∈ groupsIdx gs ↔ i < k
  nodup : (groupsIdx gs).Nodup
  ne_nil : ∀ g ∈ gs, g ≠ []
  cover : ∀ g1 ∈ gs, ∀ g2 ∈ gs, ∀ p1 ∈ g1, ∀ p2 ∈ g2, ∀ t : Int,
    coversAt es p1.1 t → coversAt es p2.1 t → g1 = g2
  lanes : ∀ g ∈ gs, (g.map Prod.snd).Nodup
  conn : ∀ g ∈ gs, ∀ p ∈ g, ∀ q ∈ g,
    Relation.ReflTransGen
      (fun a b => a ∈ g.map Prod.fst ∧ b ∈ g.map Prod.fst ∧
        overlapsB (evAt es a) (evAt es b) = true) p.1 q.1

/-- Transitive overlap connectivity between positions of the laid-out
event list — the spec's "overlap group" relation. -/
def overlapConn (evs : List LayoutEvent) (i j : Nat) : Prop :=
  Relation.ReflTransGen
    (fun a b => a < evs.length ∧ b < evs.length ∧
      overlapsB (evAt evs a) (evAt evs b) = true) i j

/-! ## General lemmas about the primitives -/

theorem splitOnColon_no_colon {cs : List Char} (h : ':' ∉ cs) :
    splitOnColon cs = [cs] := by
  induction cs with
  | nil => rfl
  | cons c cs ih =>
    have hc : c ≠ ':' := fun hcc => h (hcc ▸ List.mem_cons_self c cs)
    have hcs : ':' ∉ cs := fun hm => h (List.mem_cons_of_mem _ hm)
    rw [splitOnColon, if_neg hc, ih hcs]

theorem splitOnColon_append {a b : List Char} (h : ':' ∉ a) :
    splitOnColon (a ++ ':' :: b) = a :: splitOnColon b := by
  induction a with
  | nil =>
    show splitOnColon (':' :: b) = [] :: splitOnColon b
    rw [splitOnColon, if_pos rfl]
  | cons c cs ih =>
    have hc : c ≠ ':' := fun hcc => h (hcc ▸ List.mem_cons_self c cs)
    have hcs : ':' ∉ cs := fun hm => h (List.mem_cons_of_mem _ hm)
    show splitOnColon (c :: (cs ++ ':' :: b)) = (c :: cs) :: splitOnColon b
    rw [splitOnColon, if_neg hc, ih hcs]

theorem colon_not_mem_natChars : ∀ n < 60, ':' ∉ padStart2 (natToChars n) := by decide

theorem jsNumber_natChars : ∀ n < 60, jsNumber (padStart2 (natToChars n)) = some (n : Int) := by
  decide

/-- Round trip: formatting a non-negative number of minutes and parsing it
back gives the minute value reduced modulo one day. -/
theorem timeToMinutes_minutesToTime (x : Int) (hx : 0 ≤ x) :
    timeToMinutes (minutesToTime x) = some (x % 1440) := by
  have hfd : x.fdiv 60 = x / 60 := Int.fdiv_eq_ediv x (by norm_num)
  have hdiv_nonneg : 0 ≤ x / 60 := Int.ediv_nonneg hx (by norm_num)
  have hhm : (x.fdiv 60).tmod 24 = (x / 60) % 24 := by
    rw [hfd, Int.tmod_eq_emod hdiv_nonneg (by norm_num)]
  have hmm : x.tmod 60 = x % 60 := Int.tmod_eq_emod hx (by norm_num)
  set h : Int := (x / 60) % 24 with hh
  set m : Int := x % 60 with hm
  have hh_nonneg : 0 ≤ h := Int.emod_nonneg _ (by norm_num)
  have hh_lt : h < 24 := by
    have := Int.emod_lt_of_pos (x / 60) (show (0:Int) < 24 by norm_num)
    omega
  have hm_nonneg : 0 ≤ m := Int.emod_nonneg _ (by norm_num)
  have hm_lt : m < 60 := by
    have := Int.emod_lt_of_pos x (show (0:Int) < 60 by norm_num)
    omega
  have hint_h : intToChars h = natToChars h.toNat := by
    rw [intToChars, if_neg (by omega)]
    congr 1
    omega
  have hint_m : intToChars m = natToChars m.toNat := by
    rw [intToChars, if_neg (by omega)]
    congr 1
    omega
  have hth : h.toNat < 60 := by omega
  have htm : m.toNat < 60 := by omega
  have hsplit :
      splitOnColon (padStart2 (natToChars h.toNat) ++ ':' :: padStart2 (natToChars m.toNat)) =
        [padStart2 (natToChars h.toNat), padStart2 (natToChars m.toNat)] := by
    rw [splitOnColon_append (colon_not_mem_natChars _ hth),
      splitOnColon_no_colon (colon_not_mem_natChars _ htm)]
  rw [timeToMinutes, minutesToTime, hhm, hmm, hint_h, hint_m]
  show (match (splitOnColon (padStart2 (natToChars h.toNat) ++ ':' ::
      padStart2 (natToChars m.toNat))).map jsNumber with
    | hs :: ms :: _ =>
      match hs, ms with
      | some hv, some mv => some (hv * 60 + mv)
      | _, _ => none
    | _ => none) = some (x % 1440)
  rw [hsplit]
  simp only [List.map_cons, List.map_nil,
    jsNumber_natChars _ hth, jsNumber_natChars _ htm]
  have : (h.toNat : Int) * 60 + (m.toNat : Int) = x % 1440 := by
    have h1 : (h.toNat : Int) = (x / 60) % 24 := by omega
    have h2 : (m.toNat : Int) = x % 60 := by omega
    rw [h1, h2]
    omega
  rw [this]

/-- A computation rule for `snapToGrid` on whole-minute inputs. -/
theorem snapToGrid_intCast (m : Int) : snapToGrid (m : ℚ) = (2 * m + 5) / 10 * 5 := by
  rw [snapToGrid, jsRound]
  congr 1
  have h1 : (m : ℚ) / 5 + 1 / 2 = ((2 * m + 5 : Int) : ℚ) / ((10 : Nat) : ℚ) := by
    push_cast
    ring
  rw [h1, Rat.floor_intCast_div_natCast]
  norm_num

theorem snapToGrid_int_add (a b : Int) :
    snapToGrid ((a : ℚ) + (b : ℚ)) = (2 * (a + b) + 5) / 10 * 5 := by
  rw [← Int.cast_add, snapToGrid_intCast]

theorem digitVal_of_isDigit {c : Char} (h : c.isDigit = true) :
    digitVal c = some (c.toNat - 48) := by
  rw [digitVal, if_pos h]

theorem jsNumber_two_digits {a b : Char} (ha : a.isDigit = true) (hb : b.isDigit = true) :
    jsNumber [a, b] = some (((a.toNat - 48) * 10 + (b.toNat - 48) : Nat) : Int) := by
  have hne : a ≠ '-' := fun heq => absurd (heq ▸ ha) (by decide)
  rw [jsNumber, if_neg hne, parseNatDigits]
  simp only [List.foldl_cons, List.foldl_nil, digitVal_of_isDigit ha, digitVal_of_isDigit hb]
  norm_num

/-- A well-formed `HH:MM` string parses to a minute-of-day value in
`[0, 1440)`. -/
theorem timeToMinutes_wellFormed {t : String} (h : isWellFormedHHMM t = true) :
    ∃ v, timeToMinutes t = some v ∧ 0 ≤ v ∧ v < 1440 := by
  unfold isWellFormedHHMM at h
  split at h
  case h_2 => exact absurd h (by simp)
  case h_1 h1 h2 c m1 m2 hdata =>
    simp only [Bool.and_eq_true, beq_iff_eq, decide_eq_true_eq] at h
    obtain ⟨⟨⟨⟨⟨⟨hc, hd1⟩, hd2⟩, hd3⟩, hd4⟩, hH⟩, hM⟩ := h
    subst hc
    have hnc1 : ':' ∉ [h1, h2] := by
      intro hm
      simp only [List.mem_cons, List.not_mem_nil, or_false] at hm
      rcases hm with hm | hm
      · subst hm
        exact absurd hd1 (by decide)
      · subst hm
        exact absurd hd2 (by decide)
    have hnc2 : ':' ∉ [m1, m2] := by
      intro hm
      simp only [List.mem_cons, List.not_mem_nil, or_false] at hm
      rcases hm with hm | hm
      · subst hm
        exact absurd hd3 (by decide)
      · subst hm
        exact absurd hd4 (by decide)
    have hsplit : splitOnColon t.data = [[h1, h2], [m1, m2]] := by
      rw [hdata]
      show splitOnColon ([h1, h2] ++ ':' :: [m1, m2]) = [[h1, h2], [m1, m2]]
      rw [splitOnColon_append hnc1, splitOnColon_no_colon hnc2]
    refine ⟨(((h1.toNat - 48) * 10 + (h2.toNat - 48) : Nat) : Int) * 60 +
        (((m1.toNat - 48) * 10 + (m2.toNat - 48) : Nat) : Int), ?_, ?_, ?_⟩
    · rw [timeToMinutes, hsplit]
      simp only [List.map_cons, List.map_nil,
        jsNumber_two_digits hd1 hd2, jsNumber_two_digits hd3 hd4]
    · positivity
    · have hH23 : ((h1.toNat - 48) * 10 + (h2.toNat - 48) : Nat) ≤ 23 := by omega
      have hM59 : ((m1.toNat - 48) * 10 + (m2.toNat - 48) : Nat) ≤ 59 := by omega
      push_cast
      omega

/-! ### Evaluation rules for the pointer / keyboard handlers -/

theorem resizeMoveUpdate_eval (b : ScheduleBlock) (s e d : Int)
    (hs : timeToMinutes b.startTime = some s) (he : timeToMinutes b.endTime = some e) :
    resizeMoveUpdate b (d : ℚ) =
      some (minutesToTime (max (s + 15) (min 1440 ((2 * (e + d) + 5) / 10 * 5)))) := by
  rw [resizeMoveUpdate, hs, he]
  simp only [Option.bind_some, snapToGrid_int_add]
  rfl

theorem dragMoveUpdate_eval (b : ScheduleBlock) (s e d : Int)
    (hs : timeToMinutes b.startTime = some s) (he : timeToMinutes b.endTime = some e) :
    dragMoveUpdate b (d : ℚ) =
      some (minutesToTime (max 0 (min (1440 - (e - s)) ((2 * (s + d) + 5) / 10 * 5))),
        minutesToTime (max 0 (min (1440 - (e - s)) ((2 * (s + d) + 5) / 10 * 5)) + (e - s))) := by
  rw [dragMoveUpdate, hs, he]
  simp only [Option.bind_some, snapToGrid_int_add]
  rfl

theorem handleKeyDown_arrowUp (shiftKey : Bool) (b : ScheduleBlock) (s e : Int)
    (hs : timeToMinutes b.startTime = some s) (he : timeToMinutes b.endTime = some e) :
    handleKeyDown "ArrowUp" shiftKey b =
      some (.update (some (minutesToTime (max 0 ((2 * (s - 15) + 5) / 10 * 5))))
        (some (minutesToTime (max 0 ((2 * (s - 15) + 5) / 10 * 5) + (e - s))))) := by
  rw [handleKeyDown, hs, he]
  simp only [Option.bind_some, snapToGrid_intCast]
  rfl

theorem handleKeyDown_arrowDown (shiftKey : Bool) (b : ScheduleBlock) (s e : Int)
    (hs : timeToMinutes b.startTime = some s) (he : timeToMinutes b.endTime = some e) :
    handleKeyDown "ArrowDown" shiftKey b =
      some (.update (some (minutesToTime (min (1440 - (e - s)) ((2 * (s + 15) + 5) / 10 * 5))))
        (some (minutesToTime (min (1440 - (e - s)) ((2 * (s + 15) + 5) / 10 * 5) + (e - s))))) := by
  rw [handleKeyDown, hs, he]
  simp only [Option.bind_some, snapToGrid_intCast]
  rfl

theorem handleKeyDown_shiftArrowUp_literal (shiftKey : Bool) (b : ScheduleBlock) (s e : Int)
    (hs : timeToMinutes b.startTime = some s) (he : timeToMinutes b.endTime = some e) :
    handleKeyDown "Shift+ArrowUp" shiftKey b =
      some (.update none (some (minutesToTime (max (s + 15) ((2 * (e - 15) + 5) / 10 * 5))))) := by
  rw [handleKeyDown, hs, he]
  simp only [Option.bind_some, snapToGrid_intCast]
  rfl

/-! ## Claims -/

/-- **C8, counterexample.**  `"25:00"` is not a well-formed `HH:MM` time,
yet `timeToMinutes` returns the ordinary number `1500` — neither the NaN
sentinel (`none`) nor an exception, and not a value in `[0, 1440)` —
refuting the claim that every malformed input fails. -/
theorem timeToMinutes_malformed_returns_ordinary :
    isWellFormedHHMM "25:00" = false ∧
      timeToMinutes "25:00" = some 1500 ∧ ¬ (1500 : Int) < 1440 := by
  refine ⟨by decide, by decide, by decide⟩

/-- **C8 (amended).**  Every well-formed `HH:MM` input parses to an
integer in `[0, 1440)`.  Malformed inputs, however, do not uniformly
fail: an all-digit malformed input such as `"25:00"` yields an ordinary
out-of-range number; only a non-numeric field yields NaN (`none`), as
for `"ab:00"`. -/
theorem timeToMinutes_contract :
    (∀ t : String, isWellFormedHHMM t = true →
      ∃ v, timeToMinutes t = some v ∧ 0 ≤ v ∧ v < 1440) ∧
    (isWellFormedHHMM "25:00" = false ∧ timeToMinutes "25:00" = some 1500) ∧
    timeToMinutes "ab:00" = none := by
  refine ⟨fun t h => timeToMinutes_wellFormed h, ⟨by decide, by decide⟩, by decide⟩

/-- **C8 witness.**  The amended contract applied to the well-formed
input `"09:30"`. -/
theorem timeToMinutes_contract_witness :
    isWellFormedHHMM "09:30" = true ∧
      (∃ v, timeToMinutes "09:30" = some v ∧ 0 ≤ v ∧ v < 1440) :=
  ⟨by decide, timeToMinutes_contract.1 "09:30" (by decide)⟩

/-- **C7 (code bug).**  The component documents Shift+Arrow as
"resize"; a physical Shift+ArrowUp arrives as `key = "ArrowUp"` with
`shiftKey = true`, and since the switch never reads `shiftKey` (last
conjunct: the handler is constant in it), the event takes the
`'ArrowUp'` *move* branch, rewriting `startTime` as well as `endTime`
(`09:00–10:00 ↦ 08:45–09:45`).  The literal `'Shift+ArrowUp'` case,
which does resize `endTime` only (second conjunct), is unreachable:
`KeyboardEvent.key` is never that string. -/
theorem handleKeyDown_shift_dispatch_bug :
    handleKeyDown "ArrowUp" true blockHour =
      some (.update (some "08:45") (some "09:45")) ∧
    handleKeyDown "Shift+ArrowUp" true blockHour =
      some (.update none (some "09:45")) ∧
    (∀ (key : String) (s1 s2 : Bool) (b : ScheduleBlock),
      handleKeyDown key s1 b = handleKeyDown key s2 b) := by
  refine ⟨?_, ?_, fun _ _ _ _ => rfl⟩
  · rw [handleKeyDown_arrowUp true blockHour 540 600 (by decide) (by decide)]
    decide
  · rw [handleKeyDown_shiftArrowUp_literal true blockHour 540 600 (by decide) (by decide)]
    decide

/-- **C1, counterexample.**  `blockHour` (`09:00–10:00`, stored duration
60) satisfies the duration invariant.  One resize pointer-move of
+30 minutes writes `endTime = "10:30"` through `handleBlockUpdate`'s
spread but leaves the stored `duration` field at 60, so the mutated
block violates `duration == (endTime - startTime) mod 1440`
(it is now 90). -/
theorem resize_breaks_duration_invariant :
    durationInvariant blockHour = true ∧
      applyResizeMove blockHour ((30 : Int) : ℚ) =
        some { blockHour with endTime := "10:30" } ∧
      durationInvariant { blockHour with endTime := "10:30" } = false := by
  refine ⟨by decide, ?_, by decide⟩
  rw [applyResizeMove, resizeMoveUpdate_eval blockHour 540 600 30 (by decide) (by decide)]
  decide

/-- **C6, counterexample.**  For the cross-midnight block `23:00–01:00`
(stored duration 120), a drag of +120 minutes is claimed to clamp the
snapped candidate `1380 + 120 = 1500` to `[0, 1440 - 120]`, i.e. to
write back `"22:00"`; the code instead computes a negative duration
`60 - 1380` from the stored times, clamps to `[0, 2760]`, and writes
back `"01:00"` (wrapped by `minutesToTime`). -/
theorem dragMove_cross_midnight_counterexample :
    dragMoveUpdate blockCross ((120 : Int) : ℚ) = some ("01:00", "03:00") ∧
      minutesToTime
        (max 0 (min (1440 - blockCross.duration) (snapToGrid ((1500 : Int) : ℚ)))) = "22:00" ∧
      ("01:00" : String) ≠ "22:00" := by
  refine ⟨?_, ?_, by decide⟩
  · rw [dragMoveUpdate_eval blockCross 1380 60 120 (by decide) (by decide)]
    decide
  · rw [snapToGrid_intCast]
    decide

/-! ### Arithmetic facts about list sums of durations -/

theorem foldl_add_durations (l : List ScheduleBlock) (a : Int) :
    l.foldl (fun s b => s + b.duration) a = a + (l.map ScheduleBlock.duration).sum := by
  induction l generalizing a with
  | nil => simp
  | cons b rest ih =>
    simp only [List.foldl_cons, List.map_cons, List.sum_cons, ih]
    ring

theorem durations_all_zero {l : List ScheduleBlock}
    (hdur : ∀ b ∈ l, 0 ≤ b.duration)
    (h : (l.map ScheduleBlock.duration).sum = 0) : ∀ b ∈ l, b.duration = 0 := by
  induction l with
  | nil => intro b hb; cases hb
  | cons x rest ih =>
    intro b hb
    simp only [List.map_cons, List.sum_cons] at h
    have hx : 0 ≤ x.duration := hdur x (List.mem_cons_self _ _)
    have hrest : 0 ≤ (rest.map ScheduleBlock.duration).sum :=
      List.sum_nonneg (by
        intro y hy
        obtain ⟨b0, hb0, rfl⟩ := List.mem_map.mp hy
        exact hdur b0 (List.mem_cons_of_mem _ hb0))
    rcases List.mem_cons.mp hb with rfl | hb
    · omega
    · exact ih (fun c hc => hdur c (List.mem_cons_of_mem _ hc)) (by omega) b hb

theorem typeMinutes_zero {l : List ScheduleBlock} (t : BlockType)
    (hz : ∀ b ∈ l, b.duration = 0) : typeMinutes l t = 0 := by
  rw [typeMinutes, foldl_add_durations]
  have : ∀ x ∈ (l.filter (fun b => decide (b.type = t))).map ScheduleBlock.duration, x = 0 := by
    intro x hx
    obtain ⟨b0, hb0, rfl⟩ := List.mem_map.mp hx
    exact hz b0 (List.mem_of_mem_filter hb0)
  rw [List.sum_eq_zero this]
  ring

/-- **C10.**  For a block list with nonnegative durations summing to 0
(e.g. the empty list), every per-type breakdown percentage is 0 — that
division is guarded by the `totalMinutes > 0` check — while the three
unguarded `workLifeBalance` divisions produce `0 / 0`, so
`workPercentage`, `personalPercentage` and `sleepPercentage` are all
NaN. -/
theorem generateTimeAnalytics_zero_total (schedule : List ScheduleBlock)
    (hdur : ∀ b ∈ schedule, 0 ≤ b.duration)
    (htot : totalDurationMinutes schedule = 0) :
    (∀ item ∈ (generateTimeAnalytics schedule).breakdown, item.percentage = 0) ∧
    (generateTimeAnalytics schedule).workPercentage = JSNum.nan ∧
    (generateTimeAnalytics schedule).personalPercentage = JSNum.nan ∧
    (generateTimeAnalytics schedule).sleepPercentage = JSNum.nan := by
  have hzero : ∀ b ∈ schedule, b.duration = 0 := by
    apply durations_all_zero hdur
    have h2 := htot
    rw [totalDurationMinutes, foldl_add_durations] at h2
    omega
  have htm : ∀ t, typeMinutes schedule t = 0 := fun t => typeMinutes_zero t hzero
  refine ⟨?_, ?_, ?_, ?_⟩
  · intro item hitem
    simp only [generateTimeAnalytics, List.mem_filter, List.mem_map] at hitem
    obtain ⟨⟨t, ht, rfl⟩, hpos⟩ := hitem
    simp only [htot]
    norm_num
  · simp only [generateTimeAnalytics, htm, htot]
    norm_num [jsDiv, JSNum.mulPos, JSNum.round]
  · simp only [generateTimeAnalytics, htm, htot]
    norm_num [jsDiv, JSNum.mulPos, JSNum.round]
  · simp only [generateTimeAnalytics, htm, htot]
    norm_num [jsDiv, JSNum.mulPos, JSNum.round]

/-- **C10 witness.**  The empty schedule: total 0, empty breakdown, and
all three work-life-balance percentages NaN. -/
theorem generateTimeAnalytics_zero_total_witness :
    (∀ b ∈ ([] : List ScheduleBlock), 0 ≤ b.duration) ∧
      totalDurationMinutes [] = 0 ∧
      ((∀ item ∈ (generateTimeAnalytics ([] : List ScheduleBlock)).breakdown,
          item.percentage = 0) ∧
        (generateTimeAnalytics ([] : List ScheduleBlock)).workPercentage = JSNum.nan ∧
        (generateTimeAnalytics ([] : List ScheduleBlock)).personalPercentage = JSNum.nan ∧
        (generateTimeAnalytics ([] : List ScheduleBlock)).sleepPercentage = JSNum.nan) :=
  ⟨fun b hb => absurd hb (List.not_mem_nil b),
    by decide,
    generateTimeAnalytics_zero_total [] (fun b hb => absurd hb (List.not_mem_nil b)) (by decide)⟩

/-- **C9.**  Scenario E: whatever the blocks are, if their aggregates
are 10 h work, 0 exercise minutes, 6 h sleep and 1 h personal time,
then the optimization score is strictly below 50 (the four fixed
aggregate penalties already drive it to at most 30) and the smart
suggestions are exactly the four aggregate-driven ones, led by
reduce-work-hours, add-exercise and increase-sleep. -/
theorem scenarioE_score_and_suggestions (blocks : List ScheduleBlock) (input : String)
    (h : calculateWorkLifeBalance blocks =
      { workHours := 10, personalHours := 1, sleepHours := 6, exerciseMinutes := 0 }) :
    calculateOptimizationScore blocks < 50 ∧
      "Consider reducing work hours to improve work-life balance"
        ∈ generateSmartSuggestions blocks input ∧
      "Add at least 30 minutes of daily exercise for better health"
        ∈ generateSmartSuggestions blocks input ∧
      "Increase sleep duration to 7-9 hours for optimal recovery"
        ∈ generateSmartSuggestions blocks input := by
  have hsugg : generateSmartSuggestions blocks input =
      ["Consider reducing work hours to improve work-life balance",
       "Add at least 30 minutes of daily exercise for better health",
       "Increase sleep duration to 7-9 hours for optimal recovery",
       "Schedule more personal time for relaxation and hobbies"] := by
    rw [generateSmartSuggestions, h]
    norm_num
    by_cases hw : (blocks.filter (fun b => decide (b.type = BlockType.work))).any
        (fun b => decide (b.duration > 240)) <;> simp [hw, List.take]
  refine ⟨?_, ?_, ?_, ?_⟩
  · rw [calculateOptimizationScore, h]
    norm_num
    split_ifs <;> omega
  · rw [hsugg]
    simp
  · rw [hsugg]
    simp
  · rw [hsugg]
    simp

/-- **C9 witness.**  A concrete three-block schedule with exactly those
aggregates. -/
theorem scenarioE_witness :
    calculateWorkLifeBalance [blockE1, blockE2, blockE3] =
      { workHours := 10, personalHours := 1, sleepHours := 6, exerciseMinutes := 0 } ∧
      (calculateOptimizationScore [blockE1, blockE2, blockE3] < 50 ∧
        "Consider reducing work hours to improve work-life balance"
          ∈ generateSmartSuggestions [blockE1, blockE2, blockE3] "10h work, 6h sleep" ∧
        "Add at least 30 minutes of daily exercise for better health"
          ∈ generateSmartSuggestions [blockE1, blockE2, blockE3] "10h work, 6h sleep" ∧
        "Increase sleep duration to 7-9 hours for optimal recovery"
          ∈ generateSmartSuggestions [blockE1, blockE2, blockE3] "10h work, 6h sleep") := by
  have h : calculateWorkLifeBalance [blockE1, blockE2, blockE3] =
      { workHours := 10, personalHours := 1, sleepHours := 6, exerciseMinutes := 0 } := by
    have ht : wlbTotals [blockE1, blockE2, blockE3] = (600, 60, 360, 0) := by decide
    rw [calculateWorkLifeBalance, ht]
    simp only [WorkLifeBalance.mk.injEq]
    norm_num
  exact ⟨h, scenarioE_score_and_suggestions [blockE1, blockE2, blockE3] "10h work, 6h sleep" h⟩

/-- **C5.**  Scenario B / stable tie-break: for any two candidate blocks
both starting at `10:00` with durations 60 and 30 (in that original
order, all other fields arbitrary), the repairer keeps the first at
`10:00–11:00` and pushes the second to `11:00–11:30`; ids are
reassigned in that order. -/
theorem scenarioB_stable_tiebreak (b1 b2 : ScheduleBlock)
    (h1s : b1.startTime = "10:00") (h1d : b1.duration = 60)
    (h2s : b2.startTime = "10:00") (h2d : b2.duration = 30) :
    validateAndFixSchedule [b1, b2] =
      some [{ b1 with id := "1", startTime := "10:00", endTime := "11:00", duration := 60 },
            { b2 with id := "2", startTime := "11:00", endTime := "11:30", duration := 30 }] := by
  have h600 : timeToMinutes "10:00" = some 600 := by decide
  have h0 : timeToMinutes "00:00" = some 0 := by decide
  have h660 : timeToMinutes "11:00" = some 660 := by decide
  have hm660 : minutesToTime 660 = "11:00" := by decide
  have hm690 : minutesToTime 690 = "11:30" := by decide
  have hid1 : jsStringOfNat 1 = "1" := by decide
  have hid2 : jsStringOfNat 2 = "2" := by decide
  have hkeyed : [b1, b2].mapM (fun b => (timeToMinutes b.startTime).map (fun v => (v, b))) =
      some [(600, b1), (600, b2)] := by
    rw [List.mapM_cons, List.mapM_cons, List.mapM_nil, h1s, h2s, h600]
    rfl
  have hsorted : ([(600, b1), (600, b2)] : List (Int × ScheduleBlock)).insertionSort startKeyLE =
      [(600, b1), (600, b2)] := by
    simp [List.insertionSort, List.orderedInsert, startKeyLE]
  have hsweep2 : fixSweep "11:00" 2 [b2] = some
      [{ b2 with id := "2", startTime := "11:00", endTime := "11:30", duration := 30 }] := by
    rw [fixSweep, h2s, h600, h660]
    norm_num [Option.some_bind, h660, h2d, hm690, hid2, fixSweep]
  have hsweep : fixSweep "00:00" 1 [b1, b2] = some
      [{ b1 with id := "1", startTime := "10:00", endTime := "11:00", duration := 60 },
       { b2 with id := "2", startTime := "11:00", endTime := "11:30", duration := 30 }] := by
    rw [fixSweep, h1s, h600, h0]
    norm_num [Option.some_bind, h600, h1d, hm660, hid1, hsweep2]
  have hstep : validateAndFixSchedule [b1, b2] =
      fixSweep "00:00" 1
        ((([(600, b1), (600, b2)] : List (Int × ScheduleBlock)).insertionSort
          startKeyLE).map Prod.snd) := by
    rw [validateAndFixSchedule, hkeyed]
    rfl
  rw [hstep, hsorted]
  simp only [List.map_cons, List.map_nil]
  exact hsweep

/-- **C5 witness.**  The tie-break applied to the two concrete Scenario B
fixtures. -/
theorem scenarioB_stable_tiebreak_witness :
    validateAndFixSchedule [blockB1, blockB2] =
      some [{ blockB1 with id := "1", startTime := "10:00", endTime := "11:00", duration := 60 },
            { blockB2 with id := "2", startTime := "11:00", endTime := "11:30", duration := 30 }] :=
  scenarioB_stable_tiebreak blockB1 blockB2 rfl rfl rfl rfl

/-- The keyed list built by the sort step: second components are the
original blocks in order, first components their parsed start minutes. -/
theorem keyedSpec :
    ∀ (blocks : List ScheduleBlock) (keyed : List (Int × ScheduleBlock)),
      blocks.mapM (fun b => (timeToMinutes b.startTime).map (fun v => (v, b))) = some keyed →
      keyed.map Prod.snd = blocks ∧ ∀ p ∈ keyed, timeToMinutes p.2.startTime = some p.1 := by
  intro blocks
  induction blocks with
  | nil =>
    intro keyed h
    rw [List.mapM_nil] at h
    cases h
    exact ⟨rfl, by intro p hp; cases hp⟩
  | cons b rest ih =>
    intro keyed h
    rw [List.mapM_cons] at h
    rcases hs : timeToMinutes b.startTime with _ | sv
    · rw [hs] at h
      cases h
    · rw [hs] at h
      rcases hr : rest.mapM (fun b => (timeToMinutes b.startTime).map (fun v => (v, b)))
          with _ | krest
      · rw [hr] at h
        cases h
      · rw [hr] at h
        obtain ⟨hmap, hall⟩ := ih krest hr
        have : keyed = (sv, b) :: krest := by
          have h2 : (some ((sv, b) :: krest) : Option (List (Int × ScheduleBlock))) = some keyed := h
          exact (Option.some.inj h2).symm
        subst this
        refine ⟨by simp [hmap], ?_⟩
        intro p hp
        rcases List.mem_cons.mp hp with rfl | hp
        · exact hs
        · exact hall p hp

/-- The repair sweep always produces a chain: each start is at least the
previous (wrapped) end, starting from the parsed `lastEndTime`. -/
theorem fixSweep_chainFrom :
    ∀ (bs : List ScheduleBlock) (lastEnd : String) (idx : Nat) (out : List ScheduleBlock)
      (L : Int), fixSweep lastEnd idx bs = some out →
      timeToMinutes lastEnd = some L → 0 ≤ L → chainFrom L out := by
  intro bs
  induction bs with
  | nil =>
    intro lastEnd idx out L h hL hL0
    rw [fixSweep] at h
    cases h
    trivial
  | cons b rest ih =>
    intro lastEnd idx out L h hL hL0
    rw [fixSweep, hL] at h
    rcases hs : timeToMinutes b.startTime with _ | sv
    · rw [hs] at h
      cases h
    rw [hs] at h
    simp only [Option.bind_eq_bind', Option.some_bind] at h
    by_cases hlt : sv < L
    · rw [if_pos hlt, hL] at h
      simp only [Option.some_bind] at h
      rcases hrest : fixSweep (minutesToTime (L + max b.duration 15)) (idx + 1) rest
          with _ | out2
      · rw [hrest] at h
        cases h
      rw [hrest] at h
      simp only [Option.some_bind] at h
      cases h
      have hd15 : (15 : Int) ≤ max b.duration 15 := le_max_right _ _
      have hend : timeToMinutes (minutesToTime (L + max b.duration 15)) =
          some ((L + max b.duration 15) % 1440) :=
        timeToMinutes_minutesToTime _ (by omega)
      refine ⟨L, (L + max b.duration 15) % 1440, hL, le_refl L, hend, by omega, ?_⟩
      exact ih _ _ _ _ hrest hend (by omega)
    · rw [if_neg hlt, hs] at h
      simp only [Option.some_bind] at h
      rcases hrest : fixSweep (minutesToTime (sv + max b.duration 15)) (idx + 1) rest
          with _ | out2
      · rw [hrest] at h
        cases h
      rw [hrest] at h
      simp only [Option.some_bind] at h
      cases h
      have hd15 : (15 : Int) ≤ max b.duration 15 := le_max_right _ _
      have hsv0 : 0 ≤ sv := by omega
      have hend : timeToMinutes (minutesToTime (sv + max b.duration 15)) =
          some ((sv + max b.duration 15) % 1440) :=
        timeToMinutes_minutesToTime _ (by omega)
      refine ⟨sv, (sv + max b.duration 15) % 1440, hs, by omega, hend, by omega, ?_⟩
      exact ih _ _ _ _ hrest hend (by omega)

/-- From a chain, every consecutive pair satisfies the minute-of-day
inequality `end ≤ next start`. -/
theorem chainFrom_consecutive :
    ∀ (out : List ScheduleBlock) (L : Int), chainFrom L out →
      ∀ p ∈ out.zip out.tail, ∃ e s, timeToMinutes p.1.endTime = some e ∧
        timeToMinutes p.2.startTime = some s ∧ e ≤ s := by
  intro out
  induction out with
  | nil =>
    intro L hch p hp
    cases hp
  | cons b rest ih =>
    intro L hch p hp
    obtain ⟨s, e, hs, hLs, he, he0, hrest⟩ := hch
    match rest, hp with
    | b2 :: rest2, hp =>
      rcases List.mem_cons.mp hp with rfl | hp2
      · obtain ⟨s2, e2, hs2, hes2, he2, he20, hrest2⟩ := hrest
        exact ⟨e, s2, he, hs2, hes2⟩
      · exact ih e hrest p hp2

/-- **C2.**  No residual overlap after repair: for every input whose
start times parse (the shape the data model gives candidate blocks),
every pair of consecutive output blocks `i, i+1` satisfies
`timeToMinutes(endTime[i]) ≤ timeToMinutes(startTime[i+1])`. -/
theorem validateAndFixSchedule_no_overlap (blocks fixed : List ScheduleBlock)
    (h : validateAndFixSchedule blocks = some fixed) :
    ∀ p ∈ fixed.zip fixed.tail, ∃ e s,
      timeToMinutes p.1.endTime = some e ∧ timeToMinutes p.2.startTime = some s ∧ e ≤ s := by
  rw [validateAndFixSchedule] at h
  rcases hk : blocks.mapM (fun b => (timeToMinutes b.startTime).map (fun v => (v, b)))
      with _ | keyed
  · rw [hk] at h
    cases h
  · rw [hk] at h
    have h2 : fixSweep "00:00" 1 ((keyed.insertionSort startKeyLE).map Prod.snd) =
        some fixed := h
    exact chainFrom_consecutive fixed 0
      (fixSweep_chainFrom _ "00:00" 1 fixed 0 h2 (by decide) (by decide))

/-- **C2 witness.**  The overlapping unsorted pair
`10:00+30min, 10:00+60min` repairs to consecutive non-overlapping
blocks. -/
theorem validateAndFixSchedule_no_overlap_witness :
    validateAndFixSchedule [blockB2, blockB1] ≠ none ∧
      ∀ p ∈ (validateAndFixSchedule [blockB2, blockB1]).getD [] |>.zip
          ((validateAndFixSchedule [blockB2, blockB1]).getD []).tail, ∃ e s,
        timeToMinutes p.1.endTime = some e ∧ timeToMinutes p.2.startTime = some s ∧ e ≤ s := by
  have h : validateAndFixSchedule [blockB2, blockB1] = some
      [{ blockB2 with id := "1", startTime := "10:00", endTime := "10:30", duration := 30 },
       { blockB1 with id := "2", startTime := "10:30", endTime := "11:30", duration := 60 }] := by
    decide
  constructor
  · rw [h]
    simp
  · rw [h]
    exact validateAndFixSchedule_no_overlap _ _ h

/-- Every block the repair sweep emits satisfies the duration
invariant, provided the incoming durations are below one day. -/
theorem fixSweep_durationInvariant :
    ∀ (bs : List ScheduleBlock) (lastEnd : String) (idx : Nat) (out : List ScheduleBlock)
      (L : Int), fixSweep lastEnd idx bs = some out →
      timeToMinutes lastEnd = some L → 0 ≤ L →
      (∀ b ∈ bs, b.duration < 1440) →
      ∀ b ∈ out, durationInvariant b = true := by
  intro bs
  induction bs with
  | nil =>
    intro lastEnd idx out L h hL hL0 hdur b hb
    rw [fixSweep] at h
    cases h
    cases hb
  | cons b rest ih =>
    intro lastEnd idx out L h hL hL0 hdur b2 hb2
    rw [fixSweep, hL] at h
    rcases hs : timeToMinutes b.startTime with _ | sv
    · rw [hs] at h
      cases h
    rw [hs] at h
    simp only [Option.bind_eq_bind', Option.some_bind] at h
    have hd15 : (15 : Int) ≤ max b.duration 15 := le_max_right _ _
    have hdlt : max b.duration 15 < 1440 :=
      max_lt (hdur b (List.mem_cons_self _ _)) (by norm_num)
    by_cases hlt : sv < L
    · rw [if_pos hlt, hL] at h
      simp only [Option.some_bind] at h
      rcases hrest : fixSweep (minutesToTime (L + max b.duration 15)) (idx + 1) rest
          with _ | out2
      · rw [hrest] at h
        cases h
      rw [hrest] at h
      simp only [Option.some_bind] at h
      cases h
      have hend : timeToMinutes (minutesToTime (L + max b.duration 15)) =
          some ((L + max b.duration 15) % 1440) :=
        timeToMinutes_minutesToTime _ (by omega)
      rcases List.mem_cons.mp hb2 with rfl | hmem
      · rw [durationInvariant]
        simp only [hL, hend, decide_eq_true_eq]
        omega
      · exact ih _ _ _ _ hrest hend (by omega)
          (fun c hc => hdur c (List.mem_cons_of_mem _ hc)) b2 hmem
    · rw [if_neg hlt, hs] at h
      simp only [Option.some_bind] at h
      rcases hrest : fixSweep (minutesToTime (sv + max b.duration 15)) (idx + 1) rest
          with _ | out2
      · rw [hrest] at h
        cases h
      rw [hrest] at h
      simp only [Option.some_bind] at h
      cases h
      have hsv0 : 0 ≤ sv := by omega
      have hend : timeToMinutes (minutesToTime (sv + max b.duration 15)) =
          some ((sv + max b.duration 15) % 1440) :=
        timeToMinutes_minutesToTime _ (by omega)
      rcases List.mem_cons.mp hb2 with rfl | hmem
      · rw [durationInvariant]
        simp only [hs, hend, decide_eq_true_eq]
        omega
      · exact ih _ _ _ _ hrest hend (by omega)
          (fun c hc => hdur c (List.mem_cons_of_mem _ hc)) b2 hmem

/-- **C1 (amended).**  The repairer (re)establishes the duration
invariant for every output block whenever the input durations are below
one day; a drag pointer-move preserves it for any block whose stored
times do not cross midnight; Arrow-key moves preserve it for blocks
whose stored times are real same-day times.  (Mouse resize and
Shift+Arrow resize, by contrast, break it — see the counterexample —
because they rewrite `endTime` without touching the stored
`duration`.) -/
theorem duration_invariant_operations :
    (∀ (blocks out : List ScheduleBlock), validateAndFixSchedule blocks = some out →
      (∀ b ∈ blocks, b.duration < 1440) →
      ∀ b ∈ out, durationInvariant b = true) ∧
    (∀ (b : ScheduleBlock) (dm : ℚ) (s e : Int) (b2 : ScheduleBlock),
      timeToMinutes b.startTime = some s → timeToMinutes b.endTime = some e →
      s ≤ e → b.duration = (e - s) % 1440 →
      applyDragMove b dm = some b2 → durationInvariant b2 = true) ∧
    (∀ (b : ScheduleBlock) (shiftKey : Bool) (act : KeyAction) (s e : Int),
      timeToMinutes b.startTime = some s → timeToMinutes b.endTime = some e →
      0 ≤ s → s ≤ e → e ≤ 1440 → b.duration = (e - s) % 1440 →
      handleKeyDown "ArrowUp" shiftKey b = some act →
      durationInvariant (applyKeyUpdate b act) = true) ∧
    (∀ (b : ScheduleBlock) (shiftKey : Bool) (act : KeyAction) (s e : Int),
      timeToMinutes b.startTime = some s → timeToMinutes b.endTime = some e →
      0 ≤ s → s ≤ e → e ≤ 1440 → b.duration = (e - s) % 1440 →
      handleKeyDown "ArrowDown" shiftKey b = some act →
      durationInvariant (applyKeyUpdate b act) = true) := by
  refine ⟨?_, ?_, ?_, ?_⟩
  · intro blocks out h hdur
    rw [validateAndFixSchedule] at h
    rcases hk : blocks.mapM (fun b => (timeToMinutes b.startTime).map (fun v => (v, b)))
        with _ | keyed
    · rw [hk] at h
      cases h
    · rw [hk] at h
      have h2 : fixSweep "00:00" 1 ((keyed.insertionSort startKeyLE).map Prod.snd) =
          some out := h
      apply fixSweep_durationInvariant _ "00:00" 1 out 0 h2 (by decide) (by decide)
      intro b hb
      obtain ⟨v, hv, rfl⟩ := List.mem_map.mp hb
      have hvk : v ∈ keyed := (List.perm_insertionSort startKeyLE keyed).mem_iff.mp hv
      have hmap := (keyedSpec blocks keyed hk).1
      apply hdur
      rw [← hmap]
      exact List.mem_map_of_mem Prod.snd hvk
  · intro b dm s e b2 hs he hse hinv happ
    rw [applyDragMove, dragMoveUpdate, hs, he] at happ
    simp only [Option.bind_eq_bind', Option.some_bind, Option.map_some'] at happ
    set c : Int := max 0 (min (1440 - (e - s)) (snapToGrid ((s : ℚ) + dm))) with hc
    have hc0 : 0 ≤ c := le_max_left _ _
    have hd0 : 0 ≤ e - s := by omega
    obtain rfl := (Option.some.inj happ).symm
    rw [durationInvariant]
    simp only [timeToMinutes_minutesToTime c hc0,
      timeToMinutes_minutesToTime (c + (e - s)) (by omega), decide_eq_true_eq]
    omega
  · intro b shiftKey act s e hs he hs0 hse he1440 hinv hkey
    rw [handleKeyDown_arrowUp shiftKey b s e hs he] at hkey
    obtain rfl := (Option.some.inj hkey).symm
    rw [applyKeyUpdate]
    set n : Int := max 0 ((2 * (s - 15) + 5) / 10 * 5) with hn
    have hn0 : 0 ≤ n := le_max_left _ _
    rw [durationInvariant]
    simp only [Option.getD_some,
      timeToMinutes_minutesToTime n hn0,
      timeToMinutes_minutesToTime (n + (e - s)) (by omega), decide_eq_true_eq]
    omega
  · intro b shiftKey act s e hs he hs0 hse he1440 hinv hkey
    rw [handleKeyDown_arrowDown shiftKey b s e hs he] at hkey
    obtain rfl := (Option.some.inj hkey).symm
    rw [applyKeyUpdate]
    set n : Int := min (1440 - (e - s)) ((2 * (s + 15) + 5) / 10 * 5) with hn
    have hsnap0 : 0 ≤ (2 * (s + 15) + 5) / 10 * 5 := by positivity
    have hn0 : 0 ≤ n := le_min (by omega) hsnap0
    rw [durationInvariant]
    simp only [Option.getD_some,
      timeToMinutes_minutesToTime n hn0,
      timeToMinutes_minutesToTime (n + (e - s)) (by omega), decide_eq_true_eq]
    omega

/-- **C1 witness.**  The repair part on the Scenario B pair and the drag
part on the one-hour block, each at concrete inputs. -/
theorem duration_invariant_operations_witness :
    (∀ b ∈ [blockB1, blockB2], b.duration < 1440) ∧
      (∃ out, validateAndFixSchedule [blockB1, blockB2] = some out ∧
        ∀ b ∈ out, durationInvariant b = true) ∧
      (∃ b2, applyDragMove blockHour ((7 : Int) : ℚ) = some b2 ∧
        durationInvariant b2 = true) := by
  have h : validateAndFixSchedule [blockB1, blockB2] = some
      [{ blockB1 with id := "1", startTime := "10:00", endTime := "11:00", duration := 60 },
       { blockB2 with id := "2", startTime := "11:00", endTime := "11:30", duration := 30 }] := by
    decide
  have hd : applyDragMove blockHour ((7 : Int) : ℚ) =
      some { blockHour with startTime := "09:05", endTime := "10:05" } := by
    rw [applyDragMove, dragMoveUpdate_eval blockHour 540 600 7 (by decide) (by decide)]
    decide
  exact ⟨by decide, ⟨_, h, duration_invariant_operations.1 _ _ h (by decide)⟩,
    ⟨_, hd, duration_invariant_operations.2.1 blockHour _ 540 600 _ (by decide) (by decide)
      (by decide) (by decide) hd⟩⟩

/-- **C6 (amended).**  For a block whose stored times do not cross
midnight (`s ≤ e`, stored duration `e - s`), every drag pointer-move
writes back exactly the grid-snapped candidate clamped to
`[0, 1440 - duration]` as the new start, recomputes the end as
start + duration, and preserves the duration modulo one day.  (For
cross-midnight blocks the code computes a negative duration and the
clamp interval is wrong — see the counterexample.) -/
theorem dragMove_snap_clamp (b : ScheduleBlock) (dm : ℚ) (s e : Int)
    (hs : timeToMinutes b.startTime = some s) (he : timeToMinutes b.endTime = some e)
    (hse : s ≤ e) (hd : b.duration = e - s) :
    ∃ c, c = max 0 (min (1440 - b.duration) (snapToGrid ((s : ℚ) + dm))) ∧
      dragMoveUpdate b dm = some (minutesToTime c, minutesToTime (c + b.duration)) ∧
      timeToMinutes (minutesToTime c) = some (c % 1440) ∧
      timeToMinutes (minutesToTime (c + b.duration)) = some ((c + b.duration) % 1440) ∧
      ((c + b.duration) % 1440 - c % 1440) % 1440 = b.duration % 1440 := by
  rw [hd]
  set c : Int := max 0 (min (1440 - (e - s)) (snapToGrid ((s : ℚ) + dm))) with hc
  have hc0 : 0 ≤ c := le_max_left _ _
  refine ⟨c, rfl, ?_, timeToMinutes_minutesToTime c hc0,
    timeToMinutes_minutesToTime _ (by omega), by omega⟩
  rw [dragMoveUpdate, hs, he]
  rfl

/-- **C6 witness.**  Scenario D: dragging the 45-minute block by a pixel
delta equivalent to 7 minutes moves its start by +5 (to `09:05`), never
by +7. -/
theorem dragMove_snap_clamp_witness :
    (timeToMinutes blockD.startTime = some 540 ∧ timeToMinutes blockD.endTime = some 585 ∧
      (540 : Int) ≤ 585 ∧ blockD.duration = 585 - 540) ∧
      (∃ c, c = max 0 (min (1440 - blockD.duration) (snapToGrid ((540 : Int) + (7 : Int) : ℚ))) ∧
        dragMoveUpdate blockD ((7 : Int) : ℚ) =
          some (minutesToTime c, minutesToTime (c + blockD.duration)) ∧
        timeToMinutes (minutesToTime c) = some (c % 1440) ∧
        timeToMinutes (minutesToTime (c + blockD.duration)) =
          some ((c + blockD.duration) % 1440) ∧
        ((c + blockD.duration) % 1440 - c % 1440) % 1440 = blockD.duration % 1440) ∧
      dragMoveUpdate blockD ((7 : Int) : ℚ) = some ("09:05", "09:50") := by
  refine ⟨⟨by decide, by decide, by decide, by decide⟩, ?_, ?_⟩
  · exact dragMove_snap_clamp blockD ((7 : Int) : ℚ) 540 585 (by decide) (by decide)
      (by decide) (by decide)
  · rw [dragMoveUpdate_eval blockD 540 585 7 (by decide) (by decide)]
    decide

/-- The sweep's output satisfies `sweepShape`. -/
theorem fixSweep_sweepShape :
    ∀ (bs : List ScheduleBlock) (lastEnd : String) (idx : Nat) (out : List ScheduleBlock)
      (L : Int), fixSweep lastEnd idx bs = some out →
      timeToMinutes lastEnd = some L → 0 ≤ L → sweepShape L idx out := by
  intro bs
  induction bs with
  | nil =>
    intro lastEnd idx out L h hL hL0
    rw [fixSweep] at h
    cases h
    trivial
  | cons b rest ih =>
    intro lastEnd idx out L h hL hL0
    rw [fixSweep, hL] at h
    rcases hs : timeToMinutes b.startTime with _ | sv
    · rw [hs] at h
      cases h
    rw [hs] at h
    simp only [Option.bind_eq_bind', Option.some_bind] at h
    have hd15 : (15 : Int) ≤ max b.duration 15 := le_max_right _ _
    by_cases hlt : sv < L
    · rw [if_pos hlt, hL] at h
      simp only [Option.some_bind] at h
      rcases hrest : fixSweep (minutesToTime (L + max b.duration 15)) (idx + 1) rest
          with _ | out2
      · rw [hrest] at h
        cases h
      rw [hrest] at h
      simp only [Option.some_bind] at h
      cases h
      have hend : timeToMinutes (minutesToTime (L + max b.duration 15)) =
          some ((L + max b.duration 15) % 1440) :=
        timeToMinutes_minutesToTime _ (by omega)
      exact ⟨L, hL, le_refl L, hd15, rfl, rfl, ih _ _ _ _ hrest hend (by omega)⟩
    · rw [if_neg hlt, hs] at h
      simp only [Option.some_bind] at h
      rcases hrest : fixSweep (minutesToTime (sv + max b.duration 15)) (idx + 1) rest
          with _ | out2
      · rw [hrest] at h
        cases h
      rw [hrest] at h
      simp only [Option.some_bind] at h
      cases h
      have hsv0 : 0 ≤ sv := by omega
      have hend : timeToMinutes (minutesToTime (sv + max b.duration 15)) =
          some ((sv + max b.duration 15) % 1440) :=
        timeToMinutes_minutesToTime _ (by omega)
      exact ⟨sv, hs, by omega, hd15, rfl, rfl, ih _ _ _ _ hrest hend (by omega)⟩

/-- The keyed `mapM` succeeds whenever every start time parses. -/
theorem mapM_keyed_total :
    ∀ (bs : List ScheduleBlock), (∀ b ∈ bs, ∃ v, timeToMinutes b.startTime = some v) →
      ∃ keyed, bs.mapM (fun b => (timeToMinutes b.startTime).map (fun v => (v, b))) =
        some keyed := by
  intro bs
  induction bs with
  | nil => exact fun _ => ⟨[], rfl⟩
  | cons b rest ih =>
    intro hall
    obtain ⟨v, hv⟩ := hall b (List.mem_cons_self _ _)
    obtain ⟨krest, hkrest⟩ := ih (fun c hc => hall c (List.mem_cons_of_mem _ hc))
    refine ⟨(v, b) :: krest, ?_⟩
    rw [List.mapM_cons, hv, hkrest]
    rfl

/-- A non-wrapping sweep output gives a sorted keyed list. -/
theorem sweepShape_keyed_pairwise :
    ∀ (bs : List ScheduleBlock) (keyed : List (Int × ScheduleBlock)) (L : Int) (idx : Nat),
      sweepShape L idx bs → 0 ≤ L → (∀ b ∈ bs, noMidnightWrap b) →
      bs.mapM (fun b => (timeToMinutes b.startTime).map (fun v => (v, b))) = some keyed →
      List.Pairwise startKeyLE keyed ∧ ∀ p ∈ keyed, L ≤ p.1 := by
  intro bs
  induction bs with
  | nil =>
    intro keyed L idx hsh hL0 hnw hk
    rw [List.mapM_nil] at hk
    cases hk
    exact ⟨List.Pairwise.nil, fun p hp => absurd hp (List.not_mem_nil p)⟩
  | cons b rest ih =>
    intro keyed L idx hsh hL0 hnw hk
    obtain ⟨s, hs, hLs, hd15, hid, hend, hrest⟩ := hsh
    obtain ⟨s2, hs2, hs20, hswrap⟩ := hnw b (List.mem_cons_self _ _)
    have hss : s2 = s := by
      have := hs2.symm.trans hs
      exact Option.some.inj this
    subst hss
    rw [List.mapM_cons, hs] at hk
    rcases hkr : rest.mapM (fun b => (timeToMinutes b.startTime).map (fun v => (v, b)))
        with _ | krest
    · rw [hkr] at hk
      cases hk
    rw [hkr] at hk
    have hkeyed : keyed = (s2, b) :: krest := by
      have h2 : (some ((s2, b) :: krest) : Option (List (Int × ScheduleBlock))) = some keyed := hk
      exact (Option.some.inj h2).symm
    subst hkeyed
    have hmod : (s2 + b.duration) % 1440 = s2 + b.duration :=
      Int.emod_eq_of_lt (by omega) (by omega)
    rw [hmod] at hrest
    obtain ⟨hpw, hbound⟩ := ih krest (s2 + b.duration) (idx + 1) hrest (by omega)
      (fun c hc => hnw c (List.mem_cons_of_mem _ hc)) hkr
    refine ⟨List.Pairwise.cons ?_ hpw, ?_⟩
    · intro p hp
      have := hbound p hp
      show s2 ≤ p.1
      omega
    · intro p hp
      rcases List.mem_cons.mp hp with rfl | hp2
      · exact hLs
      · have := hbound p hp2
        omega

/-- A non-wrapping sweep output is a fixed point of the sweep. -/
theorem sweepShape_fixpoint :
    ∀ (bs : List ScheduleBlock) (lastEnd : String) (idx : Nat) (L : Int),
      sweepShape L idx bs → (∀ b ∈ bs, noMidnightWrap b) →
      timeToMinutes lastEnd = some L → 0 ≤ L →
      fixSweep lastEnd idx bs = some bs := by
  intro bs
  induction bs with
  | nil =>
    intro lastEnd idx L hsh hnw hL hL0
    rw [fixSweep]
  | cons b rest ih =>
    intro lastEnd idx L hsh hnw hL hL0
    obtain ⟨s, hs, hLs, hd15, hid, hend, hrest⟩ := hsh
    obtain ⟨s2, hs2, hs20, hswrap⟩ := hnw b (List.mem_cons_self _ _)
    have hss : s2 = s := Option.some.inj (hs2.symm.trans hs)
    subst hss
    have hmod : (s2 + b.duration) % 1440 = s2 + b.duration :=
      Int.emod_eq_of_lt (by omega) (by omega)
    rw [hmod] at hrest
    have hmax : max b.duration 15 = b.duration := max_eq_left hd15
    have hendparse : timeToMinutes (minutesToTime (s2 + b.duration)) =
        some (s2 + b.duration) := by
      rw [timeToMinutes_minutesToTime _ (by omega), hmod]
    have hrec : fixSweep (minutesToTime (s2 + b.duration)) (idx + 1) rest = some rest :=
      ih _ _ _ hrest (fun c hc => hnw c (List.mem_cons_of_mem _ hc)) hendparse (by omega)
    rw [fixSweep, hL, hs]
    simp only [Option.bind_eq_bind', Option.some_bind]
    rw [if_neg (by omega), hs]
    simp only [Option.some_bind, hmax]
    rw [hrec]
    simp only [Option.some_bind, Option.some.injEq, List.cons.injEq]
    refine ⟨?_, trivial⟩
    rw [← hid, ← hend]

/-- **C3, counterexample.**  On the input `[23:00+50min, 23:10+60min,
23:20+30min]` one repair pass pushes the second block to `23:50–00:50`
(its end wraps past midnight) while the third stays at `23:20–23:50`,
so the output is no longer sorted by start time; a second pass re-sorts
it, reassigns ids and recomputes times, giving a different list. -/
theorem repair_not_idempotent :
    (validateAndFixSchedule [blockW1, blockW2, blockW3]).bind validateAndFixSchedule ≠
      validateAndFixSchedule [blockW1, blockW2, blockW3] := by
  decide

/-- **C3 (amended).**  Whenever no block of the once-repaired output
reaches or crosses midnight (`timeToMinutes(startTime) + duration <
1440` for every output block), applying the repairer a second time
returns the output unchanged — same order, ids, times and durations. -/
theorem repair_idempotent_no_wrap (blocks out : List ScheduleBlock)
    (h : validateAndFixSchedule blocks = some out)
    (hnw : ∀ b ∈ out, noMidnightWrap b) :
    validateAndFixSchedule out = some out := by
  rw [validateAndFixSchedule] at h
  rcases hk : blocks.mapM (fun b => (timeToMinutes b.startTime).map (fun v => (v, b)))
      with _ | keyed
  · rw [hk] at h
    cases h
  rw [hk] at h
  have h2 : fixSweep "00:00" 1 ((keyed.insertionSort startKeyLE).map Prod.snd) =
      some out := h
  have hshape : sweepShape 0 1 out :=
    fixSweep_sweepShape _ "00:00" 1 out 0 h2 (by decide) (by decide)
  obtain ⟨keyed2, hk2⟩ := mapM_keyed_total out (by
    intro b hb
    obtain ⟨s, hs, _, _⟩ := hnw b hb
    exact ⟨s, hs⟩)
  obtain ⟨hmap2, hkeys2⟩ := keyedSpec out keyed2 hk2
  obtain ⟨hpw, hbound⟩ := sweepShape_keyed_pairwise out keyed2 0 1 hshape (by decide) hnw hk2
  rw [validateAndFixSchedule, hk2]
  show fixSweep "00:00" 1 ((keyed2.insertionSort startKeyLE).map Prod.snd) = some out
  rw [List.Sorted.insertionSort_eq hpw, hmap2]
  exact sweepShape_fixpoint out "00:00" 1 0 hshape hnw (by decide) (by decide)

/-- **C3 witness.**  The Scenario B pair repairs to a day-interior
schedule, and a second repair pass leaves it unchanged. -/
theorem repair_idempotent_no_wrap_witness :
    ∃ out, validateAndFixSchedule [blockB1, blockB2] = some out ∧
      (∀ b ∈ out, noMidnightWrap b) ∧
      validateAndFixSchedule out = some out := by
  have h : validateAndFixSchedule [blockB1, blockB2] = some
      [{ blockB1 with id := "1", startTime := "10:00", endTime := "11:00", duration := 60 },
       { blockB2 with id := "2", startTime := "11:00", endTime := "11:30", duration := 30 }] := by
    decide
  have hnw : ∀ b ∈
      [{ blockB1 with id := "1", startTime := "10:00", endTime := "11:00", duration := 60 },
       { blockB2 with id := "2", startTime := "11:00", endTime := "11:30", duration := 30 }],
      noMidnightWrap b := by
    intro b hb
    rcases List.mem_cons.mp hb with rfl | hb2
    · exact ⟨600, by decide, by decide, by decide⟩
    rcases List.mem_cons.mp hb2 with rfl | hb3
    · exact ⟨660, by decide, by decide, by decide⟩
    · cases hb3
  exact ⟨_, h, hnw, repair_idempotent_no_wrap _ _ h hnw⟩

theorem overlapsB_iff (a b : LayoutEvent) :
    overlapsB a b = true ↔ b.startM < a.endM ∧ a.startM < b.endM := by
  simp only [overlapsB, Bool.not_eq_true', Bool.or_eq_false_iff, decide_eq_false_iff_not,
    not_le]

theorem overlapsB_symm (a b : LayoutEvent) : overlapsB a b = overlapsB b a := by
  rw [Bool.eq_iff_iff, overlapsB_iff, overlapsB_iff]
  constructor <;> exact fun h => ⟨h.2, h.1⟩

theorem filter_ge_length_lemma (lane : Nat) :
    ∀ l : List Nat,
      (l.filter (fun x => decide (lane + 1 ≤ x))).length ≤
        (l.filter (fun x => decide (lane ≤ x))).length ∧
      (lane ∈ l →
        (l.filter (fun x => decide (lane + 1 ≤ x))).length <
          (l.filter (fun x => decide (lane ≤ x))).length) := by
  intro l
  induction l with
  | nil => simp
  | cons c cs ih =>
    obtain ⟨hmono, hstrict⟩ := ih
    by_cases h1 : lane + 1 ≤ c
    · have h2 : lane ≤ c := by omega
      simp only [List.filter_cons, decide_eq_true h1, decide_eq_true h2, if_true,
        List.length_cons]
      constructor
      · omega
      · intro hmem
        rcases List.mem_cons.mp hmem with rfl | hm
        · omega
        · have := hstrict hm
          omega
    · by_cases h2 : lane ≤ c
      · simp only [List.filter_cons, decide_eq_false h1, decide_eq_true h2, if_true,
          Bool.false_eq_true, if_false, List.length_cons]
        exact ⟨by omega, fun _ => by omega⟩
      · simp only [List.filter_cons, decide_eq_false h1, decide_eq_false h2,
          Bool.false_eq_true, if_false]
        refine ⟨hmono, fun hmem => ?_⟩
        rcases List.mem_cons.mp hmem with rfl | hm
        · omega
        · exact hstrict hm

theorem minFreeFrom_not_mem (used : List Nat) :
    ∀ (fuel lane : Nat), (used.filter (fun x => decide (lane ≤ x))).length < fuel →
      minFreeFrom used lane fuel ∉ used := by
  intro fuel
  induction fuel with
  | zero =>
    intro lane h
    omega
  | succ m ih =>
    intro lane h
    rw [minFreeFrom]
    by_cases hl : lane ∈ used
    · rw [if_pos hl]
      apply ih
      have := (filter_ge_length_lemma lane used).2 hl
      omega
    · rw [if_neg hl]
      exact hl

theorem minFreeLane_not_mem (used : List Nat) : minFreeLane used ∉ used := by
  apply minFreeFrom_not_mem
  have h := List.length_filter_le (fun x => decide (0 ≤ x)) used
  omega

theorem groupsIdx_nil : groupsIdx [] = [] := rfl

theorem groupsIdx_cons (g : LaneGroup) (gs : List LaneGroup) :
    groupsIdx (g :: gs) = g.map Prod.fst ++ groupsIdx gs := by
  simp [groupsIdx]

theorem groupsIdx_append (xs ys : List LaneGroup) :
    groupsIdx (xs ++ ys) = groupsIdx xs ++ groupsIdx ys := by
  simp [groupsIdx]

theorem mem_groupsIdx_of_mem {gs : List LaneGroup} {g : LaneGroup} {p : Nat × Nat}
    (hg : g ∈ gs) (hp : p ∈ g) : p.1 ∈ groupsIdx gs := by
  induction gs with
  | nil => cases hg
  | cons g0 rest ih =>
    rw [groupsIdx_cons, List.mem_append]
    rcases List.mem_cons.mp hg with rfl | hg2
    · exact Or.inl (List.mem_map_of_mem Prod.fst hp)
    · exact Or.inr (ih hg2)

theorem addToGroup_none_iff (es : List LayoutEvent) (i : Nat) :
    ∀ gs : List LaneGroup, addToGroup es i gs = none ↔
      ∀ g ∈ gs, groupHasOverlap es i g = false := by
  intro gs
  induction gs with
  | nil => simp [addToGroup]
  | cons g rest ih =>
    rw [addToGroup]
    by_cases hov : groupHasOverlap es i g
    · rw [if_pos hov]
      simp only [reduceCtorEq, false_iff, not_forall]
      exact ⟨g, List.mem_cons_self _ _, by simp [hov]⟩
    · rw [if_neg hov]
      constructor
      · intro h g0 hg0
        rcases List.mem_cons.mp hg0 with rfl | hg2
        · exact Bool.eq_false_iff.mpr hov
        · rcases ha : addToGroup es i rest with _ | gs2
          · exact (ih.mp ha) g0 hg2
          · rw [ha] at h
            cases h
      · intro hall
        rcases ha : addToGroup es i rest with _ | gs2
        · simp [ha]
        · exact absurd (ih.mpr fun g0 hg0 => hall g0 (List.mem_cons_of_mem _ hg0))
            (by simp [ha])

theorem addToGroup_some_spec (es : List LayoutEvent) (i : Nat) :
    ∀ (gs gs2 : List LaneGroup), addToGroup es i gs = some gs2 →
      ∃ pre g post, gs = pre ++ g :: post ∧
        gs2 = pre ++ (g ++ [(i, minFreeLane (g.map Prod.snd))]) :: post ∧
        (∀ g0 ∈ pre, groupHasOverlap es i g0 = false) ∧
        groupHasOverlap es i g = true := by
  intro gs
  induction gs with
  | nil =>
    intro gs2 h
    rw [addToGroup] at h
    cases h
  | cons g rest ih =>
    intro gs2 h
    rw [addToGroup] at h
    by_cases hov : groupHasOverlap es i g
    · rw [if_pos hov] at h
      refine ⟨[], g, rest, by simp, ?_, fun g0 hg0 => absurd hg0 (List.not_mem_nil g0), hov⟩
      have := Option.some.inj h
      simp [← this]
    · rw [if_neg hov] at h
      rcases ha : addToGroup es i rest with _ | gs3
      · rw [ha] at h
        cases h
      · rw [ha] at h
        obtain ⟨pre, g1, post, hrest, hgs3, hpre, hg1⟩ := ih gs3 ha
        have hgs2 : gs2 = g :: gs3 := by
          have h2 : (some (g :: gs3) : Option (List LaneGroup)) = some gs2 := h
          exact (Option.some.inj h2).symm
        refine ⟨g :: pre, g1, post, by rw [hrest]; rfl, by rw [hgs2, hgs3]; rfl, ?_, hg1⟩
        intro g0 hg0
        rcases List.mem_cons.mp hg0 with rfl | hg02
        · exact Bool.eq_false_iff.mpr hov
        · exact hpre g0 hg02

theorem groupHasOverlap_iff (es : List LayoutEvent) (i : Nat) (g : LaneGroup) :
    groupHasOverlap es i g = true ↔ ∃ p ∈ g, overlapsB (evAt es i) (evAt es p.1) = true := by
  simp [groupHasOverlap]

theorem groupMaxLane_spec :
    ∀ (g : LaneGroup), (∀ p ∈ g, p.2 ≤ groupMaxLane g) ∧
      (g = [] ∨ ∃ p ∈ g, groupMaxLane g = p.2) := by
  have haux : ∀ (g : LaneGroup) (a : Nat),
      (a ≤ g.foldl (fun m p => max m p.2) a) ∧
      (∀ p ∈ g, p.2 ≤ g.foldl (fun m p => max m p.2) a) ∧
      (g.foldl (fun m p => max m p.2) a = a ∨
        ∃ p ∈ g, g.foldl (fun m p => max m p.2) a = p.2) := by
    intro g
    induction g with
    | nil => exact fun a => ⟨le_refl a, fun p hp => absurd hp (List.not_mem_nil p), Or.inl rfl⟩
    | cons q rest ih =>
      intro a
      obtain ⟨hle, hall, hcase⟩ := ih (max a q.2)
      simp only [List.foldl_cons]
      refine ⟨le_trans (le_max_left _ _) hle, ?_, ?_⟩
      · intro p hp
        rcases List.mem_cons.mp hp with rfl | hp2
        · exact le_trans (le_max_right _ _) hle
        · exact hall p hp2
      · rcases hcase with heq | ⟨p, hp, heq⟩
        · rcases le_total a q.2 with hle2 | hle2
          · refine Or.inr ⟨q, List.mem_cons_self _ _, ?_⟩
            rw [heq]
            omega
          · refine Or.inl ?_
            rw [heq]
            omega
        · exact Or.inr ⟨p, List.mem_cons_of_mem _ hp, heq⟩
  intro g
  obtain ⟨hle, hall, hcase⟩ := haux g 0
  refine ⟨hall, ?_⟩
  rcases hcase with heq | ⟨p, hp, heq⟩
  · cases g with
    | nil => exact Or.inl rfl
    | cons q rest =>
      refine Or.inr ⟨q, List.mem_cons_self _ _, ?_⟩
      have h0 : groupMaxLane (q :: rest) = 0 := heq
      have hq : q.2 ≤ groupMaxLane (q :: rest) := hall q (List.mem_cons_self _ _)
      omega
  · exact Or.inr ⟨p, hp, heq⟩

theorem nodup_group_of_mem {gs : List LaneGroup} {g : LaneGroup}
    (hnd : (groupsIdx gs).Nodup) (hg : g ∈ gs) : (g.map Prod.fst).Nodup := by
  induction gs with
  | nil => cases hg
  | cons g0 rest ih =>
    rw [groupsIdx_cons] at hnd
    rcases List.mem_cons.mp hg with rfl | hg2
    · exact (List.nodup_append.mp hnd).1
    · exact ih (List.nodup_append.mp hnd).2.1 hg2

theorem group_unique {gs : List LaneGroup} {g1 g2 : LaneGroup} {i : Nat}
    (hnd : (groupsIdx gs).Nodup) (hg1 : g1 ∈ gs) (hg2 : g2 ∈ gs)
    (hi1 : i ∈ g1.map Prod.fst) (hi2 : i ∈ g2.map Prod.fst) : g1 = g2 := by
  induction gs with
  | nil => cases hg1
  | cons g0 rest ih =>
    rw [groupsIdx_cons] at hnd
    obtain ⟨hnd1, hnd2, hdisj⟩ := List.nodup_append.mp hnd
    have hmemIdx : ∀ g ∈ rest, i ∈ g.map Prod.fst → i ∈ groupsIdx rest := by
      intro g hg hig
      obtain ⟨p, hp, hpi⟩ := List.mem_map.mp hig
      exact hpi ▸ mem_groupsIdx_of_mem hg hp
    rcases List.mem_cons.mp hg1 with rfl | hg12
    · rcases List.mem_cons.mp hg2 with rfl | hg22
      · rfl
      · exact absurd (hmemIdx g2 hg22 hi2) (hdisj hi1)
    · rcases List.mem_cons.mp hg2 with rfl | hg22
      · exact absurd (hmemIdx g1 hg12 hi1) (hdisj hi2)
      · exact ih hnd2 hg12 hg22

theorem findGroup_eq {gs : List LaneGroup} {g : LaneGroup} {i : Nat}
    (hnd : (groupsIdx gs).Nodup) (hg : g ∈ gs) (hi : i ∈ g.map Prod.fst) :
    findGroup gs i = some g := by
  induction gs with
  | nil => cases hg
  | cons g0 rest ih =>
    rw [findGroup]
    by_cases h0 : i ∈ g0.map Prod.fst
    · have hgg : g = g0 := group_unique hnd hg (List.mem_cons_self _ _) hi h0
      subst hgg
      have hany : (g.any (fun p => p.1 == i)) = true := by
        rw [List.any_eq_true]
        obtain ⟨p, hp, hpi⟩ := List.mem_map.mp h0
        exact ⟨p, hp, by simp [hpi]⟩
      exact List.find?_cons_of_pos rest hany
    · have hany : g0.any (fun p => p.1 == i) = false := by
        rw [List.any_eq_false]
        intro p hp
        cases hbe : (p.1 == i) with
        | false => exact Bool.false_ne_true
        | true => exact fun _ => absurd (List.mem_map.mpr ⟨p, hp, eq_of_beq hbe⟩) h0
      have hstep : List.find? (fun g => List.any g fun p => p.1 == i) (g0 :: rest) =
          List.find? (fun g => List.any g fun p => p.1 == i) rest :=
        List.find?_cons_of_neg rest (by simp [hany])
      rw [hstep]
      have hgrest : g ∈ rest := by
        rcases List.mem_cons.mp hg with rfl | h
        · exact absurd hi h0
        · exact h
      rw [groupsIdx_cons] at hnd
      exact ih (List.nodup_append.mp hnd).2.1 hgrest

theorem find_pair_eq {g : LaneGroup} {i l : Nat}
    (hnd : (g.map Prod.fst).Nodup) (hp : (i, l) ∈ g) :
    g.find? (fun p => p.1 == i) = some (i, l) := by
  induction g with
  | nil => cases hp
  | cons q rest ih =>
    rw [List.map_cons] at hnd
    by_cases hq : q.1 = i
    · have hql : q = (i, l) := by
        rcases List.mem_cons.mp hp with h | h
        · exact h.symm
        · exfalso
          have hi : i ∈ rest.map Prod.fst := List.mem_map.mpr ⟨(i, l), h, rfl⟩
          rw [← hq] at hi
          exact (List.nodup_cons.mp hnd).1 hi
      have hstep : List.find? (fun p => p.1 == i) (q :: rest) = some q :=
        List.find?_cons_of_pos rest (by simp [hq])
      rw [hstep, hql]
    · have hstep : List.find? (fun p => p.1 == i) (q :: rest) =
          List.find? (fun p => p.1 == i) rest :=
        List.find?_cons_of_neg rest (by simp [hq])
      rw [hstep]
      rcases List.mem_cons.mp hp with h | h
      · exact absurd (congrArg Prod.fst h.symm) hq
      · exact ih (List.nodup_cons.mp hnd).2 h

theorem laneOf_eq {gs : List LaneGroup} {g : LaneGroup} {i l : Nat}
    (hnd : (groupsIdx gs).Nodup) (hg : g ∈ gs) (hp : (i, l) ∈ g) :
    laneOf gs i = l := by
  have hi : i ∈ g.map Prod.fst := List.mem_map.mpr ⟨(i, l), hp, rfl⟩
  rw [laneOf, findGroup_eq hnd hg hi]
  show (Option.map Prod.snd (g.find? (fun p => p.1 == i))).getD 0 = l
  rw [find_pair_eq (nodup_group_of_mem hnd hg) hp]
  rfl

theorem laneCountOf_eq {gs : List LaneGroup} {g : LaneGroup} {i : Nat}
    (hnd : (groupsIdx gs).Nodup) (hg : g ∈ gs) (hi : i ∈ g.map Prod.fst) :
    laneCountOf gs i = groupMaxLane g + 1 := by
  rw [laneCountOf, findGroup_eq hnd hg hi]

theorem nodup_split_not_both {pre post : List LaneGroup} {g g2 : LaneGroup} {i : Nat}
    (hnd : (groupsIdx (pre ++ g :: post)).Nodup)
    (hg2 : g2 ∈ pre ∨ g2 ∈ post)
    (hi : i ∈ g.map Prod.fst) (hi2 : i ∈ g2.map Prod.fst) : False := by
  rw [groupsIdx_append, groupsIdx_cons] at hnd
  obtain ⟨hnd1, hnd2, hdisj⟩ := List.nodup_append.mp hnd
  obtain ⟨hndg, hndpost, hdisj2⟩ := List.nodup_append.mp hnd2
  obtain ⟨p, hp, hpi⟩ := List.mem_map.mp hi2
  rcases hg2 with hg2 | hg2
  · have hA : i ∈ groupsIdx pre := hpi ▸ mem_groupsIdx_of_mem hg2 hp
    exact hdisj hA (List.mem_append_left _ hi)
  · have hC : i ∈ groupsIdx post := hpi ▸ mem_groupsIdx_of_mem hg2 hp
    exact hdisj2 hi hC

theorem exists_group_of_mem_idx {gs : List LaneGroup} {i : Nat}
    (h : i ∈ groupsIdx gs) : ∃ g ∈ gs, ∃ l, (i, l) ∈ g := by
  induction gs with
  | nil => cases h
  | cons g0 rest ih =>
    rw [groupsIdx_cons, List.mem_append] at h
    rcases h with h | h
    · obtain ⟨p, hp, hpi⟩ := List.mem_map.mp h
      exact ⟨g0, List.mem_cons_self _ _, p.2, by rw [← hpi]; exact hp⟩
    · obtain ⟨g, hg, l, hl⟩ := ih h
      exact ⟨g, List.mem_cons_of_mem _ hg, l, hl⟩

theorem groupsIdx_insert_perm (pre post : List LaneGroup) (g : LaneGroup) (k ln : Nat) :
    (groupsIdx (pre ++ (g ++ [(k, ln)]) :: post)).Perm
      (groupsIdx (pre ++ g :: post) ++ [k]) := by
  rw [groupsIdx_append, groupsIdx_cons, groupsIdx_append, groupsIdx_cons, List.map_append]
  have h2 : (List.map Prod.fst [(k, ln)] ++ groupsIdx post).Perm (groupsIdx post ++ [k]) :=
    List.perm_append_comm
  have h1 : ((g.map Prod.fst ++ List.map Prod.fst [(k, ln)]) ++ groupsIdx post).Perm
      ((g.map Prod.fst ++ groupsIdx post) ++ [k]) := by
    rw [List.append_assoc, List.append_assoc]
    exact h2.append_left _
  have h3 := h1.append_left (groupsIdx pre)
  simpa [List.append_assoc] using h3

theorem groupsInv_insertEvent (es : List LayoutEvent) (k : Nat) (gs : List LaneGroup)
    (hk : k < es.length)
    (hsort : ∀ a b : Nat, a ≤ b → b < es.length → (evAt es a).startM ≤ (evAt es b).startM)
    (inv : GroupsInv es k gs) :
    GroupsInv es (k + 1) (insertEvent es gs k) := by
  have hprocessed : ∀ gOld ∈ gs, ∀ p ∈ gOld, p.1 < k := by
    intro gOld hgO p hp
    exact (inv.mem_iff p.1).mp (mem_groupsIdx_of_mem hgO hp)
  have hknot : k ∉ groupsIdx gs := by
    intro hmem
    have := (inv.mem_iff k).mp hmem
    omega
  rcases h : addToGroup es k gs with _ | gs2
  · -- no group overlaps event k: a fresh singleton group is appended
    have hins : insertEvent es gs k = gs ++ [[(k, 0)]] := by rw [insertEvent, h]
    rw [hins]
    have hnone := (addToGroup_none_iff es k gs).mp h
    have hidx : groupsIdx (gs ++ [[(k, 0)]]) = groupsIdx gs ++ [k] := by
      rw [groupsIdx_append]
      rfl
    have hcontra : ∀ gOld ∈ gs, ∀ p ∈ gOld, ∀ t : Int,
        coversAt es p.1 t → coversAt es k t → False := by
      intro gOld hgO p hp t hcp hck
      have hov : groupHasOverlap es k gOld = true := by
        rw [groupHasOverlap_iff]
        refine ⟨p, hp, ?_⟩
        rw [overlapsB_iff]
        obtain ⟨h1, h2⟩ := hcp
        obtain ⟨h3, h4⟩ := hck
        exact ⟨by omega, by omega⟩
      rw [hnone gOld hgO] at hov
      cases hov
    refine ⟨?_, ?_, ?_, ?_, ?_, ?_⟩
    · intro i
      rw [hidx, List.mem_append, List.mem_singleton, inv.mem_iff]
      omega
    · rw [hidx]
      refine List.nodup_append.mpr ⟨inv.nodup, List.nodup_singleton k, ?_⟩
      intro a ha hb
      rw [List.mem_singleton] at hb
      subst hb
      exact hknot ha
    · intro g1 hg1
      rcases List.mem_append.mp hg1 with hg1 | hg1
      · exact inv.ne_nil g1 hg1
      · rw [List.mem_singleton] at hg1
        subst hg1
        exact List.cons_ne_nil _ _
    · intro g1 hg1 g2 hg2 p1 hp1 p2 hp2 t hc1 hc2
      rcases List.mem_append.mp hg1 with hg1 | hg1 <;>
        rcases List.mem_append.mp hg2 with hg2 | hg2
      · exact inv.cover g1 hg1 g2 hg2 p1 hp1 p2 hp2 t hc1 hc2
      · rw [List.mem_singleton] at hg2
        subst hg2
        rcases List.mem_singleton.mp hp2 with rfl
        exact absurd (hcontra g1 hg1 p1 hp1 t hc1 hc2) not_false
      · rw [List.mem_singleton] at hg1
        subst hg1
        rcases List.mem_singleton.mp hp1 with rfl
        exact absurd (hcontra g2 hg2 p2 hp2 t hc2 hc1) not_false
      · rw [List.mem_singleton] at hg1 hg2
        rw [hg1, hg2]
    · intro g1 hg1
      rcases List.mem_append.mp hg1 with hg1 | hg1
      · exact inv.lanes g1 hg1
      · rw [List.mem_singleton] at hg1
        subst hg1
        exact List.nodup_singleton 0
    · intro g1 hg1 p hp q hq
      rcases List.mem_append.mp hg1 with hg1 | hg1
      · exact inv.conn g1 hg1 p hp q hq
      · rw [List.mem_singleton] at hg1
        subst hg1
        rcases List.mem_singleton.mp hp with rfl
        rcases List.mem_singleton.mp hq with rfl
        exact Relation.ReflTransGen.refl
  · -- event k joins the first overlapping group g
    have hins : insertEvent es gs k = gs2 := by rw [insertEvent, h]
    rw [hins]
    obtain ⟨pre, g, post, hgs, hgs2, hpre, hov⟩ := addToGroup_some_spec es k gs gs2 h
    subst hgs
    subst hgs2
    obtain ⟨p0, hp0, hovp0⟩ := (groupHasOverlap_iff es k g).mp hov
    have hg_mem : g ∈ pre ++ g :: post := List.mem_append_right _ (List.mem_cons_self _ _)
    have hold_mem : ∀ gOld : LaneGroup, gOld ∈ pre ∨ gOld ∈ post →
        gOld ∈ pre ++ g :: post := by
      intro gOld hgO
      rcases hgO with hgO | hgO
      · exact List.mem_append_left _ hgO
      · exact List.mem_append_right _ (List.mem_cons_of_mem _ hgO)
    have hclass : ∀ g1 ∈ pre ++ (g ++ [(k, minFreeLane (g.map Prod.snd))]) :: post,
        (g1 ∈ pre ∨ g1 ∈ post) ∨ g1 = g ++ [(k, minFreeLane (g.map Prod.snd))] := by
      intro g1 hg1
      rcases List.mem_append.mp hg1 with hg1 | hg1
      · exact Or.inl (Or.inl hg1)
      · rcases List.mem_cons.mp hg1 with hg1 | hg1
        · exact Or.inr hg1
        · exact Or.inl (Or.inr hg1)
    have hperm := groupsIdx_insert_perm pre post g k (minFreeLane (g.map Prod.snd))
    -- the shared-minute argument forcing every prior overlapper into g
    have hsame : ∀ gOld : LaneGroup, (gOld ∈ pre ∨ gOld ∈ post) → ∀ p ∈ gOld,
        ∀ t : Int, coversAt es p.1 t → coversAt es k t → False := by
      intro gOld hgO p hp t hcp hck
      have hgOgs := hold_mem gOld hgO
      have hpk : p.1 < k := hprocessed gOld hgOgs p hp
      have hp0k : p0.1 < k := hprocessed g hg_mem p0 hp0
      have hs1 : (evAt es p.1).startM ≤ (evAt es k).startM :=
        hsort p.1 k (by omega) hk
      have hs0 : (evAt es p0.1).startM ≤ (evAt es k).startM :=
        hsort p0.1 k (by omega) hk
      obtain ⟨ho1, ho2⟩ := (overlapsB_iff _ _).mp hovp0
      have hcov_p : coversAt es p.1 (evAt es k).startM := by
        obtain ⟨h1, h2⟩ := hcp
        obtain ⟨h3, h4⟩ := hck
        exact ⟨hs1, by omega⟩
      have hcov_p0 : coversAt es p0.1 (evAt es k).startM := ⟨hs0, ho2⟩
      have heq : g = gOld :=
        inv.cover g hg_mem gOld hgOgs p0 hp0 p hp (evAt es k).startM hcov_p0 hcov_p
      exact nodup_split_not_both inv.nodup hgO
        (List.mem_map_of_mem Prod.fst hp0) (heq ▸ List.mem_map_of_mem Prod.fst hp0)
    have hgonly : ∀ gOld : LaneGroup, (gOld ∈ pre ∨ gOld ∈ post) →
        ∀ i, i ∈ gOld.map Prod.fst → i ∈ g.map Prod.fst → False := by
      intro gOld hgO i hi1 hi2
      exact nodup_split_not_both inv.nodup hgO hi2 hi1
    refine ⟨?_, ?_, ?_, ?_, ?_, ?_⟩
    · intro i
      rw [hperm.mem_iff, List.mem_append, List.mem_singleton, inv.mem_iff]
      omega
    · rw [hperm.nodup_iff]
      refine List.nodup_append.mpr ⟨inv.nodup, List.nodup_singleton k, ?_⟩
      intro a ha hb
      rw [List.mem_singleton] at hb
      subst hb
      exact hknot ha
    · intro g1 hg1
      rcases hclass g1 hg1 with hgO | hgn
      · exact inv.ne_nil g1 (hold_mem g1 hgO)
      · subst hgn
        simp
    · intro g1 hg1 g2 hg2 p1 hp1 p2 hp2 t hc1 hc2
      rcases hclass g1 hg1 with hgO1 | hgn1 <;> rcases hclass g2 hg2 with hgO2 | hgn2
      · exact inv.cover g1 (hold_mem g1 hgO1) g2 (hold_mem g2 hgO2) p1 hp1 p2 hp2 t hc1 hc2
      · subst hgn2
        rcases List.mem_append.mp hp2 with hp2g | hp2k
        · have heq : g1 = g :=
            inv.cover g1 (hold_mem g1 hgO1) g hg_mem p1 hp1 p2 hp2g t hc1 hc2
          exact absurd (hgonly g1 hgO1 p1.1 (List.mem_map_of_mem Prod.fst hp1)
            (heq ▸ List.mem_map_of_mem Prod.fst hp1)) not_false
        · rcases List.mem_singleton.mp hp2k with rfl
          exact absurd (hsame g1 hgO1 p1 hp1 t hc1 hc2) not_false
      · subst hgn1
        rcases List.mem_append.mp hp1 with hp1g | hp1k
        · have heq : g2 = g :=
            inv.cover g2 (hold_mem g2 hgO2) g hg_mem p2 hp2 p1 hp1g t hc2 hc1
          exact absurd (hgonly g2 hgO2 p2.1 (List.mem_map_of_mem Prod.fst hp2)
            (heq ▸ List.mem_map_of_mem Prod.fst hp2)) not_false
        · rcases List.mem_singleton.mp hp1k with rfl
          exact absurd (hsame g2 hgO2 p2 hp2 t hc2 hc1) not_false
      · rw [hgn1, hgn2]
    · intro g1 hg1
      rcases hclass g1 hg1 with hgO | hgn
      · exact inv.lanes g1 (hold_mem g1 hgO)
      · subst hgn
        rw [List.map_append]
        refine List.nodup_append.mpr
          ⟨inv.lanes g hg_mem, List.nodup_singleton _, ?_⟩
        intro a ha hb
        simp only [List.map_cons, List.map_nil, List.mem_singleton] at hb
        subst hb
        exact minFreeLane_not_mem (g.map Prod.snd) ha
    · intro g1 hg1 p hp q hq
      rcases hclass g1 hg1 with hgO | hgn
      · exact inv.conn g1 (hold_mem g1 hgO) p hp q hq
      · subst hgn
        have hsub : ∀ a b : Nat,
            (a ∈ g.map Prod.fst ∧ b ∈ g.map Prod.fst ∧
              overlapsB (evAt es a) (evAt es b) = true) →
            (a ∈ (g ++ [(k, minFreeLane (g.map Prod.snd))]).map Prod.fst ∧
              b ∈ (g ++ [(k, minFreeLane (g.map Prod.snd))]).map Prod.fst ∧
              overlapsB (evAt es a) (evAt es b) = true) := by
          intro a b ⟨h1, h2, h3⟩
          rw [List.map_append]
          exact ⟨List.mem_append_left _ h1, List.mem_append_left _ h2, h3⟩
        have hconng : ∀ p1 ∈ g, ∀ q1 ∈ g,
            Relation.ReflTransGen
              (fun a b => a ∈ (g ++ [(k, minFreeLane (g.map Prod.snd))]).map Prod.fst ∧
                b ∈ (g ++ [(k, minFreeLane (g.map Prod.snd))]).map Prod.fst ∧
                overlapsB (evAt es a) (evAt es b) = true) p1.1 q1.1 := by
          intro p1 hp1 q1 hq1
          exact (inv.conn g hg_mem p1 hp1 q1 hq1).mono hsub
        have hkmem : k ∈ (g ++ [(k, minFreeLane (g.map Prod.snd))]).map Prod.fst := by
          rw [List.map_append]
          exact List.mem_append_right _ (List.mem_singleton.mpr rfl)
        have hp0mem : p0.1 ∈ (g ++ [(k, minFreeLane (g.map Prod.snd))]).map Prod.fst := by
          rw [List.map_append]
          exact List.mem_append_left _ (List.mem_map_of_mem Prod.fst hp0)
        have hstep_kp0 :
            Relation.ReflTransGen
              (fun a b => a ∈ (g ++ [(k, minFreeLane (g.map Prod.snd))]).map Prod.fst ∧
                b ∈ (g ++ [(k, minFreeLane (g.map Prod.snd))]).map Prod.fst ∧
                overlapsB (evAt es a) (evAt es b) = true) k p0.1 :=
          Relation.ReflTransGen.single ⟨hkmem, hp0mem, hovp0⟩
        have hstep_p0k :
            Relation.ReflTransGen
              (fun a b => a ∈ (g ++ [(k, minFreeLane (g.map Prod.snd))]).map Prod.fst ∧
                b ∈ (g ++ [(k, minFreeLane (g.map Prod.snd))]).map Prod.fst ∧
                overlapsB (evAt es a) (evAt es b) = true) p0.1 k :=
          Relation.ReflTransGen.single ⟨hp0mem, hkmem, by rw [overlapsB_symm]; exact hovp0⟩
        rcases List.mem_append.mp hp with hpg | hpk <;>
          rcases List.mem_append.mp hq with hqg | hqk
        · exact hconng p hpg q hqg
        · rcases List.mem_singleton.mp hqk with rfl
          exact (hconng p hpg p0 hp0).trans hstep_p0k
        · rcases List.mem_singleton.mp hpk with rfl
          exact hstep_kp0.trans (hconng p0 hp0 q hqg)
        · rcases List.mem_singleton.mp hpk with rfl
          rcases List.mem_singleton.mp hqk with rfl
          exact Relation.ReflTransGen.refl

theorem groupsInv_nil (es : List LayoutEvent) : GroupsInv es 0 [] := by
  refine ⟨?_, ?_, ?_, ?_, ?_, ?_⟩
  · intro i
    constructor
    · intro hmem
      cases hmem
    · omega
  · exact List.nodup_nil
  · intro g hg
    cases hg
  · intro g1 hg1
    cases hg1
  · intro g hg
    cases hg
  · intro g hg
    cases hg

theorem groupsInv_buildGroups (es : List LayoutEvent)
    (hsort : ∀ a b : Nat, a ≤ b → b < es.length → (evAt es a).startM ≤ (evAt es b).startM) :
    GroupsInv es es.length (buildGroups es) := by
  have haux : ∀ k, k ≤ es.length →
      GroupsInv es k ((List.range k).foldl (insertEvent es) []) := by
    intro k
    induction k with
    | zero => exact fun _ => groupsInv_nil es
    | succ m ih =>
      intro hle
      rw [List.range_succ m, List.foldl_append]
      exact groupsInv_insertEvent es m _ (by omega) hsort (ih (by omega))
  exact haux es.length (le_refl _)

theorem overlapping_same_group (es : List LayoutEvent) {i j : Nat}
    (hi : i < es.length) (hj : j < es.length)
    (hwfi : (evAt es i).startM < (evAt es i).endM)
    (hwfj : (evAt es j).startM < (evAt es j).endM)
    (inv : GroupsInv es es.length (buildGroups es))
    (hov : overlapsB (evAt es i) (evAt es j) = true) :
    ∃ g ∈ buildGroups es, i ∈ g.map Prod.fst ∧ j ∈ g.map Prod.fst := by
  obtain ⟨gi, hgi, li, hli⟩ :=
    exists_group_of_mem_idx ((inv.mem_iff i).mpr hi)
  obtain ⟨gj, hgj, lj, hlj⟩ :=
    exists_group_of_mem_idx ((inv.mem_iff j).mpr hj)
  obtain ⟨ho1, ho2⟩ := (overlapsB_iff _ _).mp hov
  have hci : coversAt es i (max (evAt es i).startM (evAt es j).startM) :=
    ⟨le_max_left _ _, by omega⟩
  have hcj : coversAt es j (max (evAt es i).startM (evAt es j).startM) :=
    ⟨le_max_right _ _, by omega⟩
  have heq : gi = gj :=
    inv.cover gi hgi gj hgj (i, li) hli (j, lj) hlj _ hci hcj
  refine ⟨gi, hgi, List.mem_map_of_mem Prod.fst hli, ?_⟩
  rw [heq]
  exact List.mem_map_of_mem Prod.fst hlj

theorem evAt_map_range (n : Nat) (f : Nat → LayoutEvent) {a : Nat} (ha : a < n) :
    evAt ((List.range n).map f) a = f a := by
  rw [evAt, List.getD_eq_getElem?_getD, List.getElem?_map, List.getElem?_range ha]
  rfl

theorem toLayoutEvent_wf {b : ScheduleBlock} {ev : LayoutEvent}
    (h : toLayoutEvent b = some ev) : ev.startM + 5 ≤ ev.endM := by
  rcases hs : timeToMinutes b.startTime with _ | start
  · rw [toLayoutEvent] at h
    rw [hs] at h
    simp [Option.bind_eq_bind'] at h
  · rcases he : timeToMinutes b.endTime with _ | end0
    · rw [toLayoutEvent] at h
      rw [hs, he] at h
      simp [Option.bind_eq_bind'] at h
    · rw [toLayoutEvent] at h
      rw [hs, he] at h
      simp only [Option.bind_eq_bind', Option.some_bind] at h
      obtain rfl := (Option.some.inj h).symm
      show start + 5 ≤ _
      split_ifs <;> dsimp only <;> omega

theorem mapM_toLayoutEvent_mem :
    ∀ (blocks : List ScheduleBlock) (evs0 : List LayoutEvent),
      blocks.mapM toLayoutEvent = some evs0 →
      ∀ ev ∈ evs0, ∃ b, toLayoutEvent b = some ev := by
  intro blocks
  induction blocks with
  | nil =>
    intro evs0 h ev hev
    rw [List.mapM_nil] at h
    obtain rfl := (Option.some.inj h).symm
    cases hev
  | cons b rest ih =>
    intro evs0 h ev hev
    rw [List.mapM_cons] at h
    rcases hv : toLayoutEvent b with _ | v
    · rw [hv] at h
      simp [Option.bind_eq_bind'] at h
    · rcases hr : rest.mapM toLayoutEvent with _ | vs
      · rw [hv, hr] at h
        simp [Option.bind_eq_bind'] at h
      · rw [hv, hr] at h
        simp only [Option.bind_eq_bind', Option.some_bind] at h
        obtain rfl := (Option.some.inj h).symm
        rcases List.mem_cons.mp hev with rfl | hev2
        · exact ⟨b, hv⟩
        · exact ih vs hr ev hev2

theorem sorted_evAt_mono {l : List LayoutEvent} (hs : List.Sorted levLE l) :
    ∀ a b : Nat, a ≤ b → b < l.length → (evAt l a).startM ≤ (evAt l b).startM := by
  intro a b hab hb
  have ha : a < l.length := by omega
  rcases Nat.eq_or_lt_of_le hab with rfl | hlt
  · exact le_refl _
  · have hrel := hs.rel_get_of_lt
      (show (⟨a, ha⟩ : Fin l.length) < ⟨b, hb⟩ from hlt)
    have hga : evAt l a = l.get ⟨a, ha⟩ := by
      rw [evAt, List.getD_eq_getElem?_getD, List.getElem?_eq_getElem ha]
      rfl
    have hgb : evAt l b = l.get ⟨b, hb⟩ := by
      rw [evAt, List.getD_eq_getElem?_getD, List.getElem?_eq_getElem hb]
      rfl
    rw [hga, hgb]
    rcases hrel with hrel | hrel
    · omega
    · omega

theorem layoutLanes_spec (es : List LayoutEvent)
    (hsorted : List.Sorted levLE es)
    (hwf : ∀ a, a < es.length → (evAt es a).startM < (evAt es a).endM)
    (evs : List LayoutEvent)
    (hevs : evs = (List.range es.length).map (fun i =>
      { evAt es i with
        lane := laneOf (buildGroups es) i
        laneCount := laneCountOf (buildGroups es) i })) :
    (∀ i j : Nat, i < evs.length → j < evs.length → i ≠ j →
        overlapsB (evAt evs i) (evAt evs j) = true →
        (evAt evs i).lane ≠ (evAt evs j).lane) ∧
    (∀ i j : Nat, overlapConn evs i j →
        (evAt evs i).laneCount = (evAt evs j).laneCount) ∧
    (∀ i : Nat, i < evs.length →
        (∃ j : Nat, overlapConn evs i j ∧
          (evAt evs i).laneCount = (evAt evs j).lane + 1) ∧
        (∀ j : Nat, overlapConn evs i j →
          (evAt evs j).lane + 1 ≤ (evAt evs i).laneCount)) := by
  have hsort := sorted_evAt_mono hsorted
  have inv := groupsInv_buildGroups es hsort
  have hlen : evs.length = es.length := by
    rw [hevs, List.length_map, List.length_range]
  have hevAt : ∀ a, a < es.length → evAt evs a =
      { evAt es a with
        lane := laneOf (buildGroups es) a
        laneCount := laneCountOf (buildGroups es) a } := by
    intro a ha
    rw [hevs]
    exact evAt_map_range _ _ ha
  have hlane : ∀ a, a < es.length →
      (evAt evs a).lane = laneOf (buildGroups es) a := by
    intro a ha
    rw [hevAt a ha]
  have hcount : ∀ a, a < es.length →
      (evAt evs a).laneCount = laneCountOf (buildGroups es) a := by
    intro a ha
    rw [hevAt a ha]
  have hovT : ∀ a b, a < es.length → b < es.length →
      overlapsB (evAt evs a) (evAt evs b) = overlapsB (evAt es a) (evAt es b) := by
    intro a b ha hb
    rw [hevAt a ha, hevAt b hb]
    rfl
  have hsg : ∀ a b, a < es.length → b < es.length →
      overlapsB (evAt es a) (evAt es b) = true →
      ∃ g ∈ buildGroups es, a ∈ g.map Prod.fst ∧ b ∈ g.map Prod.fst :=
    fun a b ha hb hov =>
      overlapping_same_group es ha hb (hwf a ha) (hwf b hb) inv hov
  have hfindstep : ∀ a b, a < es.length → b < es.length →
      overlapsB (evAt es a) (evAt es b) = true →
      findGroup (buildGroups es) a = findGroup (buildGroups es) b := by
    intro a b ha hb hov
    obtain ⟨g, hg, hag, hbg⟩ := hsg a b ha hb hov
    rw [findGroup_eq inv.nodup hg hag, findGroup_eq inv.nodup hg hbg]
  have hconnfind : ∀ i j, overlapConn evs i j →
      findGroup (buildGroups es) i = findGroup (buildGroups es) j := by
    intro i j hconn
    induction hconn with
    | refl => rfl
    | tail hrtg hstep ih =>
      obtain ⟨hb, hc, hov⟩ := hstep
      rw [hlen] at hb hc
      rw [ih, hfindstep _ _ hb hc (by rw [← hovT _ _ hb hc]; exact hov)]
  have hjrange : ∀ i j, overlapConn evs i j → j = i ∨ j < es.length := by
    intro i j hconn
    induction hconn with
    | refl => exact Or.inl rfl
    | tail hrtg hstep ih =>
      obtain ⟨hb, hc, _⟩ := hstep
      rw [hlen] at hc
      exact Or.inr hc
  have hirange : ∀ i j, overlapConn evs i j → i = j ∨ i < es.length := by
    intro i j hconn
    induction hconn with
    | refl => exact Or.inl rfl
    | tail hrtg hstep ih =>
      obtain ⟨hb, hc, _⟩ := hstep
      rw [hlen] at hb
      rcases ih with rfl | hilt
      · exact Or.inr hb
      · exact Or.inr hilt
  refine ⟨?_, ?_, ?_⟩
  · -- overlapping events get distinct lanes
    intro i j hi hj hne hov
    rw [hlen] at hi hj
    rw [hlane i hi, hlane j hj]
    have hov2 : overlapsB (evAt es i) (evAt es j) = true := by
      rw [← hovT i j hi hj]
      exact hov
    obtain ⟨g, hg, hig, hjg⟩ := hsg i j hi hj hov2
    obtain ⟨p, hp, hpi⟩ := List.mem_map.mp hig
    obtain ⟨q, hq, hqj⟩ := List.mem_map.mp hjg
    have hpl : laneOf (buildGroups es) i = p.2 :=
      laneOf_eq inv.nodup hg (show (i, p.2) ∈ g by rw [← hpi]; exact hp)
    have hql : laneOf (buildGroups es) j = q.2 :=
      laneOf_eq inv.nodup hg (show (j, q.2) ∈ g by rw [← hqj]; exact hq)
    rw [hpl, hql]
    intro heq
    have hpq : p = q :=
      List.inj_on_of_nodup_map (inv.lanes g hg) hp hq heq
    exact hne (by rw [← hpi, ← hqj, hpq])
  · -- laneCount is constant across an overlap component
    intro i j hconn
    have hfind := hconnfind i j hconn
    rcases hjrange i j hconn with rfl | hj
    · rfl
    · rcases hirange i j hconn with rfl | hi
      · rfl
      · rw [hcount i hi, hcount j hj, laneCountOf, laneCountOf, hfind]
  · -- laneCount = 1 + max lane over the component
    intro i hi
    rw [hlen] at hi
    obtain ⟨g, hg, li, hli⟩ := exists_group_of_mem_idx ((inv.mem_iff i).mpr hi)
    have hig : i ∈ g.map Prod.fst := List.mem_map_of_mem Prod.fst hli
    have hfind_i : findGroup (buildGroups es) i = some g :=
      findGroup_eq inv.nodup hg hig
    have hcnt : laneCountOf (buildGroups es) i = groupMaxLane g + 1 := by
      rw [laneCountOf, hfind_i]
    obtain ⟨hbound, hattain⟩ := groupMaxLane_spec g
    have hmemlt : ∀ p : Nat × Nat, p ∈ g → p.1 < es.length := by
      intro p hp
      exact (inv.mem_iff p.1).mp (mem_groupsIdx_of_mem hg hp)
    constructor
    · rcases hattain with hnil | ⟨p, hp, hmax⟩
      · exact absurd hnil (inv.ne_nil g hg)
      · refine ⟨p.1, ?_, ?_⟩
        · have hR := inv.conn g hg (i, li) hli p hp
          refine hR.mono ?_
          rintro a b ⟨ha, hb, hab⟩
          have ha2 : a < es.length := by
            obtain ⟨pa, hpa, hpaa⟩ := List.mem_map.mp ha
            exact hpaa ▸ hmemlt pa hpa
          have hb2 : b < es.length := by
            obtain ⟨pb, hpb, hpbb⟩ := List.mem_map.mp hb
            exact hpbb ▸ hmemlt pb hpb
          refine ⟨by omega, by omega, ?_⟩
          rw [hovT a b ha2 hb2]
          exact hab
        · have hp1 : p.1 < es.length := hmemlt p hp
          rw [hcount i hi, hcnt, hlane p.1 hp1,
            laneOf_eq inv.nodup hg (show (p.1, p.2) ∈ g from hp), hmax]
    · intro j hconn
      have hfind := hconnfind i j hconn
      rw [hfind_i] at hfind
      rcases hjrange i j hconn with rfl | hj
      · rw [hcount j hi, hcnt, hlane j hi,
          laneOf_eq inv.nodup hg (show (j, li) ∈ g from hli)]
        have := hbound (j, li) hli
        omega
      · have hfj : findGroup (buildGroups es) j = some g := hfind.symm
        rw [findGroup] at hfj
        have hany : (g.any (fun p => p.1 == j)) = true :=
          @List.find?_some _ (fun g0 : LaneGroup => g0.any (fun p => p.1 == j)) g _ hfj
        obtain ⟨q, hq, hqj⟩ := List.any_eq_true.mp hany
        have hqj2 : q.1 = j := by
          exact eq_of_beq hqj
        rw [hcount i hi, hcnt, hlane j hj,
          laneOf_eq inv.nodup hg (show (j, q.2) ∈ g by rw [← hqj2]; exact hq)]
        have := hbound q hq
        omega

/-- **C4.**  Lane non-collision: for every block list accepted by the layout
engine, (1) any two distinct laid-out events whose expanded intervals overlap
are assigned different lanes; (2) all events in the same overlap group (the
transitive closure of pairwise overlap) carry the same `laneCount`; (3) that
`laneCount` equals `1 + max(lane)` over the event's overlap group (some group
member attains `laneCount - 1` and every member's lane is below `laneCount`);
and (4) the three Scenario C blocks 09:00–11:00, 10:00–10:30, 10:15–10:45 fed
directly to `layoutEvents` receive the three distinct lanes 0, 1, 2 with
`laneCount = 3` each. -/
theorem layoutEvents_lane_non_collision (blocks : List ScheduleBlock)
    (evs : List LayoutEvent) (h : layoutEvents blocks = some evs) :
    (∀ i j : Nat, i < evs.length → j < evs.length → i ≠ j →
        overlapsB (evAt evs i) (evAt evs j) = true →
        (evAt evs i).lane ≠ (evAt evs j).lane) ∧
    (∀ i j : Nat, overlapConn evs i j →
        (evAt evs i).laneCount = (evAt evs j).laneCount) ∧
    (∀ i : Nat, i < evs.length →
        (∃ j : Nat, overlapConn evs i j ∧
          (evAt evs i).laneCount = (evAt evs j).lane + 1) ∧
        (∀ j : Nat, overlapConn evs i j →
          (evAt evs j).lane + 1 ≤ (evAt evs i).laneCount)) ∧
    (layoutEvents [blockC1, blockC2, blockC3]).map
        (fun l => l.map (fun e => (e.lane, e.laneCount))) =
      some [(0, 3), (1, 3), (2, 3)] := by
  rcases hm : blocks.mapM toLayoutEvent with _ | evs0
  · rw [layoutEvents, hm] at h
    simp [Option.bind_eq_bind'] at h
  · rw [layoutEvents, hm] at h
    simp only [Option.bind_eq_bind', Option.some_bind] at h
    have hevs := (Option.some.inj h).symm
    have hsorted : List.Sorted levLE (evs0.insertionSort levLE) :=
      List.sorted_insertionSort levLE evs0
    have hwf : ∀ a, a < (evs0.insertionSort levLE).length →
        (evAt (evs0.insertionSort levLE) a).startM <
          (evAt (evs0.insertionSort levLE) a).endM := by
      intro a ha
      have hmem : evAt (evs0.insertionSort levLE) a ∈ evs0.insertionSort levLE := by
        rw [evAt, List.getD_eq_getElem?_getD, List.getElem?_eq_getElem ha]
        exact List.getElem_mem _
      have hmem0 : evAt (evs0.insertionSort levLE) a ∈ evs0 :=
        (List.perm_insertionSort levLE evs0).subset hmem
      obtain ⟨b, hb⟩ := mapM_toLayoutEvent_mem blocks evs0 hm _ hmem0
      have := toLayoutEvent_wf hb
      omega
    obtain ⟨h1, h2, h3⟩ := layoutLanes_spec (evs0.insertionSort levLE) hsorted hwf evs hevs
    exact ⟨h1, h2, h3, by decide⟩

/-- The C4 theorem applied to the Scenario C block list itself: its
hypothesis `layoutEvents blocks = some evs` is discharged by computation. -/
theorem layoutEvents_lane_non_collision_witness :
    ∃ evs, layoutEvents [blockC1, blockC2, blockC3] = some evs ∧
      (∀ i j : Nat, i < evs.length → j < evs.length → i ≠ j →
          overlapsB (evAt evs i) (evAt evs j) = true →
          (evAt evs i).lane ≠ (evAt evs j).lane) := by
  refine ⟨(layoutEvents [blockC1, blockC2, blockC3]).getD [], rfl, ?_⟩
  exact (layoutEvents_lane_non_collision [blockC1, blockC2, blockC3] _ rfl).1
